import Mathlib

/-
A shallow embedding of the Starhaven text adventure (src/Strarhaven.py).

The Python program is a single mutable `Game` object driven by a read-eval
loop.  Here the mutable state is the `Game` structure; every action handler
becomes a pure function `Game → StepRes` where `StepRes` carries the updated
state, the printed lines (unwrapped; ASCII straight quotes of the source are
rendered as typographic quotes), and an optional process exit (SystemExit on
win or on the timer reaching zero, or loop break on quit).  Python dicts
(`self.rooms`, `self.items`, `self.npcs`, `evidence_pool`,
`self.killer_evidence`) are insertion-ordered association lists; the dict
lookups and in-place field mutations become `alGet`/`alUpd`.  The random
generator is modelled by passing each drawn value explicitly: `random.choice`
receives the chosen index, `random.sample(pool, 3)` receives three
pairwise-distinct indices into the population (which is exactly what sampling
without replacement produces), and the `rng.random() < 0.25` test inside
`talk` receives its Boolean outcome.  The save file is the `file` component of
`Sys`; `save`/`load` write and read it.
-/

namespace Starhaven


/-- Association-list lookup: first entry with the given key (Python dict access). -/
def alGet {α : Type} (m : List (String × α)) (k : String) : Option α :=
  (m.find? (fun p => p.1 == k)).map (fun p => p.2)

/-- Association-list in-place update of the value stored at a key
(Python mutation of the object found under that key); unknown keys are a no-op. -/
def alUpd {α : Type} (m : List (String × α)) (k : String) (f : α → α) :
    List (String × α) :=
  m.map (fun p => if p.1 == k then (k, f p.2) else p)

/-- Python dataclass `Item`. -/
structure Item where
  id : String
  name : String
  desc : String
  portable : Bool
  deriving DecidableEq

/-- Python dataclass `Room`. -/
structure Room where
  id : String
  name : String
  desc : String
  x : Int
  y : Int
  items : List String
  npcs : List String
  passable : Bool
  deriving DecidableEq

/-- Python dataclass `NPC`. -/
structure NPC where
  id : String
  name : String
  title : String
  room : String
  alibi : String
  truth_when_innocent : String
  lie_when_guilty : String
  cooperative : Bool
  arrested : Bool
  deriving DecidableEq

/-- The mutable state of the Python `Game` object (the `random.Random`
generator is externalized: each action that draws randomness takes the drawn
value as an argument). -/
structure Game where
  time : Int
  rooms : List (String × Room)
  items : List (String × Item)
  npcs : List (String × NPC)
  player_room : String
  inv : List String
  killer_id : String
  killer_evidence : List (String × List String)
  brigrm : String
  cmdrm : String
  deriving DecidableEq

/-- Process exits: SystemExit from the win branch of `use_console`, SystemExit
from `spend` hitting zero, or the loop break on `quit`. -/
inductive Exit where
  | win
  | lose
  | quit
  deriving DecidableEq

/-- Result of one action: new state, printed lines, optional termination. -/
structure StepRes where
  g : Game
  out : List String
  ex : Option Exit
  deriving DecidableEq

def defaultItem : Item := ⟨"", "", "", true⟩

def defaultRoom : Room := ⟨"", "", "", 0, 0, [], [], true⟩

def defaultNPC : NPC := ⟨"", "", "", "", "", "", "", true, false⟩

/-- `self.items[i]` (room item lists only ever hold valid ids, so the default
is never reached in reachable states). -/
def get_item (g : Game) (i : String) : Item := (alGet g.items i).getD defaultItem

def get_room (g : Game) (rid : String) : Room := (alGet g.rooms rid).getD defaultRoom

def get_npc (g : Game) (nid : String) : NPC := (alGet g.npcs nid).getD defaultNPC

/-- `DIRS`: direction token to grid offset, in the dict's insertion order. -/
def DIRS : List (String × Int × Int) :=
  [("n", (0, -1)), ("s", (0, 1)), ("e", (1, 0)), ("w", (-1, 0))]

/-- The authored room table (`_build_world`), in insertion order; `npcs` lists
start empty and are only filled by `_sync_npcs_in_room`. -/
def worldRooms : List (String × Room) :=
  [ ("atrium", ⟨"atrium", "Grand Atrium",
      "A vaulted hub of glass and brass. Guests murmur beneath a holographic sun.",
      2, 1, ["cuffs"], [], true⟩),
    ("gala", ⟨"gala", "Gala Dome",
      "A crystal hemisphere with a view of the star. Tables abandoned mid-toast.",
      2, 0, ["cufflink", "manifest"], [], true⟩),
    ("labs", ⟨"labs", "Bio-Labs",
      "Sterile corridors and nutrient fog. Security panels blink amber.",
      1, 0, ["stimulant", "overwritten_log"], [], true⟩),
    ("hangar", ⟨"hangar", "Shuttle Hangar",
      "Docked skiffs hum softly. The escape shuttle is locked behind red bars.",
      4, 1, ["forged_card"], [], true⟩),
    ("command", ⟨"command", "Command Deck",
      "Tiered consoles and a captain’s chair. The Master Console awaits.",
      3, 0, ["thruster_invoice"], [], true⟩),
    ("brig", ⟨"brig", "Security Brig",
      "Energy bars and cold benches. An arrest field projector hums.",
      0, 1, [], [], true⟩),
    ("gardens", ⟨"gardens", "Starlight Gardens",
      "Bioluminescent vines wind around art installations.",
      1, 2, ["dna_fiber"], [], true⟩),
    ("suites", ⟨"suites", "VIP Suites",
      "Private doors, hush-fields, and the perfume of old money.",
      3, 2, ["weapon_garrote"], [], true⟩),
    ("service", ⟨"service", "Service Ducts",
      "Tight passages. The station’s veins and secrets.",
      4, 2, ["maintenance_key"], [], true⟩),
    ("observ", ⟨"observ", "Observatory",
      "A darkened lens toward eternity. One pane bears a smeared print.",
      0, 0, ["smeared_print"], [], true⟩) ]

/-- The authored item table (`_build_world`), in insertion order. -/
def worldItems : List (String × Item) :=
  [ ("cuffs", ⟨"cuffs", "Restraint Cuffs",
      "Security-issue restraints. Required to arrest.", true⟩),
    ("weapon_garrote", ⟨"weapon_garrote", "Monofilament Garrote",
      "A deadly, almost invisible wire.", true⟩),
    ("forged_card", ⟨"forged_card", "Forged Access Card",
      "Fake credentials to restricted areas.", true⟩),
    ("overwritten_log", ⟨"overwritten_log", "Overwritten Maint Log",
      "Someone scrubbed a schedule entry.", true⟩),
    ("cufflink", ⟨"cufflink", "Bloodied Cufflink",
      "A luxury cufflink marred by blood.", true⟩),
    ("stimulant", ⟨"stimulant", "Stimulant Vial",
      "Keeps one wired through the night.", true⟩),
    ("thruster_invoice", ⟨"thruster_invoice", "Thruster Fuel Invoice",
      "Large purchase to adjust trajectory.", true⟩),
    ("manifest", ⟨"manifest", "Shuttle Manifest",
      "Lists who booked hangar access windows.", true⟩),
    ("dna_fiber", ⟨"dna_fiber", "Microscopic Fiber",
      "Matches a rare weave—if tested.", true⟩),
    ("smeared_print", ⟨"smeared_print", "Smeared Fingerprint",
      "Partial, odd—like gel gloves were used.", true⟩),
    ("maintenance_key", ⟨"maintenance_key", "Maintenance Master Key",
      "Opens service panels.", true⟩),
    ("codes_token", ⟨"codes_token", "Master Codes Token",
      "Decryption seed for trajectory lockout. Found only on the killer.", false⟩) ]

/-- The authored suspect table (`_build_world`), in insertion order. -/
def worldNpcs : List (String × NPC) :=
  [ ("voss", ⟨"voss", "Dr. Selene Voss", "biotech magnate", "labs",
      "Was calibrating gene arrays in Bio-Labs.",
      "You can ask the lab AI—my access badge logged me in at 23:10.",
      "I never left the gala. Dozens saw me.", true, false⟩),
    ("rourke", ⟨"rourke", "Admiral Kade Rourke", "retired fleet", "observ",
      "Consulting star charts in the Observatory.",
      "An ensign pinged me there; check the telescope usage logs.",
      "I was in my suite polishing medals; no one saw me.", true, false⟩),
    ("chen", ⟨"chen", "Minister Lira Chen", "trade minister", "gala",
      "Negotiating a treaty in the Gala Dome.",
      "Security holo shows me on the dais at 23:40.",
      "Alone in prayer in the gardens; no recordings.", true, false⟩),
    ("vale", ⟨"vale", "Orin Vale", "media baron", "suites",
      "Interview prep in the VIP Suites.",
      "My producer ping records prove I stayed in-suite.",
      "I toured the labs with permission—routine stuff.", true, false⟩),
    ("das", ⟨"das", "Prof. Mira Das", "AI ethicist", "atrium",
      "Debating sentience law by the atrium sculpture.",
      "The sculpture’s mic captured the debate; timestamped.",
      "I took a quiet walk in the unmonitored ducts.", true, false⟩),
    ("pax", ⟨"pax", "Pax Morita", "chief engineer", "service",
      "Inspecting service ducts after an anomaly.",
      "Maintenance drone #7 tagged me on route S-Delta.",
      "Chatting with donors in the Dome all evening.", true, false⟩) ]

/-- The ids of the ten rooms, in table order. -/
def roomIds : List String := worldRooms.map Prod.fst

/-- The ids of the six suspects, in table order. -/
def npcIds : List String := worldNpcs.map Prod.fst

/-- The state right after `Game.__init__` runs `_build_world`
(before `_seed_case`). -/
def build_world : Game :=
  { time := 60
    rooms := worldRooms
    items := worldItems
    npcs := worldNpcs
    player_room := "atrium"
    inv := []
    killer_id := ""
    killer_evidence := []
    brigrm := "brig"
    cmdrm := "command" }

/-- `evidence_pool` local dict of `_seed_case`, in insertion order. -/
def evidence_pool : List (String × List String) :=
  [ ("voss", ["dna_fiber", "stimulant", "forged_card"]),
    ("rourke", ["cufflink", "smeared_print", "thruster_invoice"]),
    ("chen", ["manifest", "forged_card", "weapon_garrote"]),
    ("vale", ["cufflink", "manifest", "stimulant"]),
    ("das", ["overwritten_log", "dna_fiber", "smeared_print"]),
    ("pax", ["maintenance_key", "overwritten_log", "thruster_invoice"]) ]

/-- Model of `random.Random.sample(pool, 3)`: the elements of the population
at three generator-chosen positions.  Sampling without replacement makes the
three positions pairwise distinct and in range; that fact is the `SelOK`
hypothesis in the theorems below. -/
def sample3 (pool : List String) (s : Nat × Nat × Nat) : List String :=
  [pool.getD s.1 "", pool.getD s.2.1 "", pool.getD s.2.2 ""]

/-- The guarantee `random.Random.sample(pool, 3)` gives about its three chosen
positions: in range and pairwise distinct. -/
def SelOK (pool : List String) (s : Nat × Nat × Nat) : Prop :=
  s.1 < pool.length ∧ s.2.1 < pool.length ∧ s.2.2 < pool.length ∧
    s.1 ≠ s.2.1 ∧ s.1 ≠ s.2.2 ∧ s.2.1 ≠ s.2.2

/-- `_seed_case`: picks the killer (`random.choice` modelled by the chosen
index `killerIdx`), assigns evidence, and scatters any movable item that is
not already placed into a generator-chosen room (`scatterIdx` indexes into
`drop_rooms`; in the authored world every movable item is pre-placed, so this
branch never fires). -/
def seed_case (g : Game) (killerIdx : Nat) (sel : String → Nat × Nat × Nat)
    (scatterIdx : String → Nat) : Game :=
  let suspects := g.npcs.map Prod.fst
  let g := { g with killer_id := suspects.getD killerIdx "" }
  let ev := suspects.map (fun sus =>
    (sus, sample3 ((alGet evidence_pool sus).getD []) (sel sus)))
  let g := { g with killer_evidence := ev }
  let movable := (g.items.filter (fun p => p.2.portable && p.1 != "codes_token")).map Prod.fst
  let drop_rooms := (g.rooms.map Prod.fst).filter (fun rid => rid != g.brigrm && rid != g.cmdrm)
  movable.foldl (fun g iid =>
    if g.rooms.any (fun p => p.2.items.contains iid) then g
    else
      let rooms1 := alUpd g.rooms (drop_rooms.getD (scatterIdx iid) "")
        (fun r => { r with items := r.items ++ [iid] })
      { g with rooms := rooms1 }) g

/-- `Game.__init__`: build the world, then seed the case. -/
def initGame (killerIdx : Nat) (sel : String → Nat × Nat × Nat)
    (scatterIdx : String → Nat) : Game :=
  seed_case build_world killerIdx sel scatterIdx

/-- `room_at_xy`: first passable room at the exact coordinates, scanning the
room table in insertion order. -/
def room_at_xy (g : Game) (x y : Int) : Option Room :=
  (g.rooms.find? (fun p => p.2.x == x && p.2.y == y && p.2.passable)).map (fun p => p.2)

/-- `current_room` (`self.rooms[self.player_room]`). -/
def current_room (g : Game) : Room := get_room g g.player_room

/-- Update the current room in place. -/
def updCurrentRoom (g : Game) (f : Room → Room) : Game :=
  { g with rooms := alUpd g.rooms g.player_room f }

/-- `spend`: clamp the timer at zero; the instant it reaches zero, print the
loss message and raise SystemExit. -/
def spend (g : Game) (minutes : Int) : StepRes :=
  let t := max 0 (g.time - minutes)
  let g := { g with time := t }
  if t = 0 then
    ⟨g, ["The station groans as safeties fail. Starhaven kisses the sun. All goes white."],
      some Exit.lose⟩
  else ⟨g, [], none⟩

/-- Model of Python `str.lower` (adequate for this program's ASCII names):
lowercase every character. -/
def lower (s : String) : String := ⟨s.data.map Char.toLower⟩

/-- Model of Python `str.upper`: uppercase every character. -/
def upper (s : String) : String := ⟨s.data.map Char.toUpper⟩

/-- `" ".join(args).lower()`. -/
def joinLower (args : List String) : String := lower (String.intercalate " " args)

/-- The item-name test used by `take`, `drop` and `inspect`:
`self.items[i].name.lower()==name or i==name` (the input is already lowered). -/
def itemMatches (g : Game) (i : String) (name : String) : Bool :=
  lower (get_item g i).name == name || i == name

/-- The person-name test used by `inspect`, `talk` and `arrest`:
`n.name.lower()==who or nid==who`. -/
def npcMatches (g : Game) (nid : String) (who : String) : Bool :=
  lower (get_npc g nid).name == who || nid == who

/-- `look`: room header, item and NPC lines, exits, then `spend(0)`. -/
def look (g : Game) : StepRes :=
  let r := current_room g
  let base := [r.name ++ "\n" ++ r.desc]
  let base := base ++ (if r.items = [] then [] else
    ["Items here: " ++ String.intercalate ", " (r.items.map (fun i => (get_item g i).name))])
  let base := base ++ (if r.npcs = [] then [] else
    ["You see: " ++ String.intercalate ", " (r.npcs.map (fun n => (get_npc g n).name))])
  let exits := DIRS.filterMap (fun p =>
    if (room_at_xy g (r.x + p.2.1) (r.y + p.2.2)).isSome then some p.1 else none)
  let base := base ++ [if exits = [] then "No exits."
    else "Exits: " ++ String.intercalate ", " exits]
  let res := spend g 0
  ⟨res.g, base ++ res.out, res.ex⟩

/-- First word of the room name, first three characters, uppercased
(`r.name.split()[0][:3].upper()`). -/
def roomLabel (r : Room) : String := upper (((r.name.splitOn " ").headD "").take 3)

/-- One cell of the deck-plan grid: the player marker overwrites the room
label, and a later room in table order overwrites an earlier one at the same
coordinates (Python fills the grid by iterating the table). -/
def mapCell (g : Game) (x y : Int) : String :=
  if (current_room g).x = x ∧ (current_room g).y = y then "[X]"
  else
    match g.rooms.reverse.find? (fun p => p.2.x == x && p.2.y == y) with
    | some p => roomLabel p.2
    | none => "   "

/-- `show_map`: render the grid (the source takes `max` of the coordinate
lists; the world is nonempty with nonnegative coordinates, so folding `max`
from 0 agrees), then `spend(0)`. -/
def show_map (g : Game) : StepRes :=
  let W := ((g.rooms.map (fun p => p.2.x)).foldl max 0) + 1
  let H := ((g.rooms.map (fun p => p.2.y)).foldl max 0) + 1
  let rows := (List.range H.toNat).map (fun y =>
    String.intercalate " " ((List.range W.toNat).map (fun x =>
      mapCell g (Int.ofNat x) (Int.ofNat y))))
  let res := spend g 0
  ⟨res.g, ("STARHAVEN DECK PLAN:" :: rows) ++ res.out, res.ex⟩

/-- `show_time`. -/
def show_time (g : Game) : StepRes :=
  let res := spend g 0
  ⟨res.g, ("Time to solar impact: " ++ toString g.time ++ " minutes.") :: res.out, res.ex⟩

/-- `inv_show`. -/
def inv_show (g : Game) : StepRes :=
  let msg := if g.inv = [] then "You carry nothing."
    else "You carry: " ++ String.intercalate ", " (g.inv.map (fun i => (get_item g i).name))
  let res := spend g 0
  ⟨res.g, msg :: res.out, res.ex⟩

/-- `_sync_npcs_in_room`: rebuild every room's NPC list from the suspects'
current rooms, excluding arrested suspects. -/
def sync_npcs_in_room (g : Game) : Game :=
  { g with rooms := g.rooms.map (fun p =>
      (p.1, { p.2 with npcs :=
        (g.npcs.filter (fun q => q.2.room == p.1 && !q.2.arrested)).map Prod.fst })) }

/-- `move`: validate the direction token, look up the destination cell, and on
success relocate the player, resync NPC visibility, re-render the room
(`look`, which spends 0), and spend 2 minutes. -/
def move (g : Game) (d : String) : StepRes :=
  let d := lower d
  match alGet DIRS d with
  | none => ⟨g, ["Use: go n/e/s/w"], none⟩
  | some off =>
    let r := current_room g
    match room_at_xy g (r.x + off.1) (r.y + off.2) with
    | none => ⟨g, ["Access denied or bulkhead sealed."], none⟩
    | some target =>
      let g := { g with player_room := target.id }
      let g := sync_npcs_in_room g
      let r1 := look g
      match r1.ex with
      | some e => ⟨r1.g, r1.out, some e⟩
      | none =>
        let r2 := spend r1.g 2
        ⟨r2.g, r1.out ++ r2.out, r2.ex⟩

/-- `take`: resolve the name over the current room's item list, refuse
non-portable items, otherwise remove the first occurrence from the room,
append to the inventory, and spend 1 minute. -/
def take (g : Game) (args : List String) : StepRes :=
  match args with
  | [] => ⟨g, ["Take what?"], none⟩
  | _ :: _ =>
    let name := joinLower args
    let r := current_room g
    match r.items.find? (fun i => itemMatches g i name) with
    | none => ⟨g, ["Not here."], none⟩
    | some iid =>
      let it := get_item g iid
      if it.portable = false then ⟨g, ["It’s fixed in place."], none⟩
      else
        let g := updCurrentRoom g (fun rm => { rm with items := rm.items.erase iid })
        let g := { g with inv := g.inv ++ [iid] }
        let res := spend g 1
        ⟨res.g, ("You take the " ++ it.name ++ ".") :: res.out, res.ex⟩

/-- `drop`: resolve the name over the inventory, remove the first occurrence,
append to the current room's item list, and spend 1 minute. -/
def drop (g : Game) (args : List String) : StepRes :=
  match args with
  | [] => ⟨g, ["Drop what?"], none⟩
  | _ :: _ =>
    let name := joinLower args
    match g.inv.find? (fun i => itemMatches g i name) with
    | none => ⟨g, ["You don’t have that."], none⟩
    | some iid =>
      let g := { g with inv := g.inv.erase iid }
      let g := updCurrentRoom g (fun rm => { rm with items := rm.items ++ [iid] })
      let res := spend g 1
      ⟨res.g, ("You drop the " ++ (get_item g iid).name ++ ".") :: res.out, res.ex⟩

/-- `inspect`: scan the inventory followed by the current room's items; on a
match print the description (with the extra hint when the item is among the
killer's assigned evidence) and spend 1; otherwise scan the room's visible
NPCs, and on a match print a one-liner and spend 1; otherwise print the
generic message and spend nothing. -/
def inspect (g : Game) (args : List String) : StepRes :=
  match args with
  | [] => ⟨g, ["Inspect what?"], none⟩
  | _ :: _ =>
    let name := joinLower args
    let pool := g.inv ++ (current_room g).items
    match pool.find? (fun i => itemMatches g i name) with
    | some i =>
      let it := get_item g i
      let detail := if ((alGet g.killer_evidence g.killer_id).getD []).contains i then
          it.desc ++ " (Something about this ties uncomfortably close to the killer.)"
        else it.desc
      let res := spend g 1
      ⟨res.g, detail :: res.out, res.ex⟩
    | none =>
      match (current_room g).npcs.find? (fun nid => npcMatches g nid name) with
      | some nid =>
        let n := get_npc g nid
        let res := spend g 1
        ⟨res.g, (n.name ++ ", " ++ n.title ++ ". " ++
          (if n.cooperative then "Calm" else "Guarded") ++ ".") :: res.out, res.ex⟩
      | none => ⟨g, ["You find nothing notable."], none⟩

/-- `talk`: resolve over the current room's visible NPCs; the killer answers
with the lie, anyone else with the truth; a 25% draw (`coopFlip`) makes a
non-killer cooperative; spend 2 minutes. -/
def talk (g : Game) (args : List String) (coopFlip : Bool) : StepRes :=
  match args with
  | [] => ⟨g, ["Talk to whom?"], none⟩
  | _ :: _ =>
    let who := joinLower args
    match (current_room g).npcs.find? (fun nid => npcMatches g nid who) with
    | none => ⟨g, ["They aren’t here."], none⟩
    | some tid =>
      let n := get_npc g tid
      let guilty := tid == g.killer_id
      let line := if guilty then n.lie_when_guilty else n.truth_when_innocent
      let g := if !guilty && coopFlip then
          { g with npcs := alUpd g.npcs tid (fun m => { m with cooperative := true }) }
        else g
      let res := spend g 2
      ⟨res.g, (n.name ++ ": “" ++ line ++ "”") :: res.out, res.ex⟩

/-- `accuse`: resolve to any known suspect (by id, else by exact lowered
display name); purely informational; spend 3 minutes. -/
def accuse (g : Game) (args : List String) : StepRes :=
  match args with
  | [] => ⟨g, ["Accuse whom?"], none⟩
  | _ :: _ =>
    let who := joinLower args
    let whoR : Option String :=
      if (g.npcs.map Prod.fst).contains who then some who
      else match g.npcs.find? (fun p => lower p.2.name == who) with
        | some p => some p.1
        | none => none
    match whoR with
    | none => ⟨g, ["Not a listed guest."], none⟩
    | some who =>
      let guilty := who == g.killer_id
      let tips := (alGet g.killer_evidence g.killer_id).getD []
      let msgs := ["You lay out your case against " ++ (get_npc g who).name ++ "."] ++
        (if guilty then
          ["They blanch. A vein ticks. The room chills.",
           "Key tells: " ++ String.intercalate ", "
             (tips.map (fun e => (get_item g e).name)) ++ "."]
        else ["They sneer. Those “clues” don’t hold up. Doubt creeps in."])
      let res := spend g 3
      ⟨res.g, msgs ++ res.out, res.ex⟩

/-- `arrest`: needs the cuffs in inventory; resolves over the current room's
visible NPCs; no-op if already restrained; otherwise marks the suspect
arrested, relocates them to the brig, resyncs visibility, reveals the codes
token in the brig exactly when the suspect is the killer (idempotently), and
spends 3 minutes. -/
def arrest (g : Game) (args : List String) : StepRes :=
  match args with
  | [] => ⟨g, ["Arrest whom?"], none⟩
  | _ :: _ =>
    let who := joinLower args
    if "cuffs" ∈ g.inv then
      match (current_room g).npcs.find? (fun nid => npcMatches g nid who) with
      | none => ⟨g, ["They aren’t here."], none⟩
      | some tid =>
        let n := get_npc g tid
        if n.arrested then ⟨g, ["Already restrained."], none⟩
        else
          let npcs1 := alUpd g.npcs tid
            (fun m => { m with arrested := true, room := g.brigrm })
          let g := { g with npcs := npcs1 }
          let g := sync_npcs_in_room g
          let g := if tid = g.killer_id then
              (if "codes_token" ∈ (get_room g g.brigrm).items then g
               else
                 let rooms1 := alUpd g.rooms g.brigrm
                   (fun r => { r with items := r.items ++ ["codes_token"] })
                 { g with rooms := rooms1 })
            else g
          let res := spend g 3
          ⟨res.g, ("You restrain " ++ n.name ++
            ". Security drones escort them to the Brig.") :: res.out, res.ex⟩
    else ⟨g, ["You need Restraint Cuffs to arrest."], none⟩

/-- `use_console`: only on the Command Deck; wins (SystemExit) exactly when
the codes token sits in the brig, otherwise prints the rejection (plus a note
when anyone is restrained) and spends 1 minute. -/
def use_console (g : Game) : StepRes :=
  if g.player_room = g.cmdrm then
    let kname := (get_npc g g.killer_id).name
    if "codes_token" ∈ (get_room g g.brigrm).items then
      ⟨g, ["You splice in the Master Codes Token from the Brig. The lockout shudders…",
           "Trajectory control restored. Starhaven veers away from the sun.",
           "The killer was " ++ kname ++ ". Justice will follow.",
           "YOU WIN."], some Exit.win⟩
    else
      let extra := if g.npcs.any (fun p => p.2.arrested) then
          ["Someone is in the Brig… but the console rejects their credentials.",
           "If you grabbed the wrong person, time is running out."]
        else []
      let res := spend g 1
      ⟨res.g, (["Console flashes: “DECRYPTION SEED REQUIRED — (ARREST PERPETRATOR)”."] ++
        extra) ++ res.out, res.ex⟩
  else ⟨g, ["You must be at the Master Console on the Command Deck."], none⟩

/-- The flat record `save` writes to `starhaven_save.json`. -/
structure SaveData where
  time : Int
  player_room : String
  inv : List String
  rooms : List (String × List String × List String)
  npcs : List (String × String × Bool × Bool)
  killer : String
  killer_evidence : List (String × List String)
  deriving DecidableEq

/-- The dict built by `Game.save` (the JSON snapshot of the mutable state). -/
def save_data (g : Game) : SaveData :=
  { time := g.time
    player_room := g.player_room
    inv := g.inv
    rooms := g.rooms.map (fun p => (p.1, p.2.items, p.2.npcs))
    npcs := g.npcs.map (fun p => (p.1, p.2.room, p.2.arrested, p.2.cooperative))
    killer := g.killer_id
    killer_evidence := g.killer_evidence }

/-- `Game.load` applied to an already-parsed record: overwrite the mutable
state field by field, in the source's assignment order. -/
def load_from (g : Game) (d : SaveData) : Game :=
  let g := { g with time := d.time, player_room := d.player_room, inv := d.inv }
  let g := d.rooms.foldl (fun g p =>
    let rooms1 := alUpd g.rooms p.1 (fun r => { r with items := p.2.1, npcs := p.2.2 })
    { g with rooms := rooms1 }) g
  let g := d.npcs.foldl (fun g p =>
    let npcs1 := alUpd g.npcs p.1
      (fun n => { n with room := p.2.1, arrested := p.2.2.1, cooperative := p.2.2.2 })
    { g with npcs := npcs1 }) g
  { g with killer_id := d.killer, killer_evidence := d.killer_evidence }

/-- A parsed command line, as dispatched by `Game.run` (the `talk` draw is
carried on the command). -/
inductive Cmd where
  | help
  | look
  | showMap
  | showTime
  | go (args : List String)
  | take (args : List String)
  | drop (args : List String)
  | invShow
  | inspect (args : List String)
  | talk (args : List String) (coopFlip : Bool)
  | accuse (args : List String)
  | arrest (args : List String)
  | useConsole
  | save
  | load
  | quit
  | unknown
  deriving DecidableEq

/-- Whether a command is the `load` command. -/
def Cmd.isLoad : Cmd → Bool
  | Cmd.load => true
  | _ => false

/-- Process state: the in-memory game plus the save file's contents. -/
structure Sys where
  g : Game
  file : Option SaveData
  deriving DecidableEq

/-- Result of one iteration of the command loop. -/
structure SysRes where
  s : Sys
  out : List String
  ex : Option Exit
  deriving DecidableEq

def helpLines : List String :=
  ["Commands: help, look, map, go n/e/s/w, take [item], drop [item], inv, inspect [thing],",
   "          talk [name], accuse [name], arrest [name], use console, time, save, load, quit"]

/-- Dispatch of `Game.run` on one parsed command (without the soft-reminder
line, which `stepSys` appends). -/
def stepCore (s : Sys) (c : Cmd) : SysRes :=
  let lift : StepRes → SysRes := fun r => ⟨⟨r.g, s.file⟩, r.out, r.ex⟩
  match c with
  | Cmd.help => ⟨s, helpLines, none⟩
  | Cmd.look => lift (look s.g)
  | Cmd.showMap => lift (show_map s.g)
  | Cmd.showTime => lift (show_time s.g)
  | Cmd.go args =>
    match args with
    | [] => ⟨s, ["Go where? n/e/s/w"], none⟩
    | a :: _ => lift (move s.g a)
  | Cmd.take args => lift (take s.g args)
  | Cmd.drop args => lift (drop s.g args)
  | Cmd.invShow => lift (inv_show s.g)
  | Cmd.inspect args => lift (inspect s.g args)
  | Cmd.talk args flip => lift (talk s.g args flip)
  | Cmd.accuse args => lift (accuse s.g args)
  | Cmd.arrest args => lift (arrest s.g args)
  | Cmd.useConsole => lift (use_console s.g)
  | Cmd.save => ⟨⟨s.g, some (save_data s.g)⟩, ["Saved."], none⟩
  | Cmd.load =>
    match s.file with
    | none => ⟨s, ["No save found."], none⟩
    | some d => ⟨⟨load_from s.g d, s.file⟩, ["Loaded."], none⟩
  | Cmd.quit => ⟨s, ["Goodbye."], some Exit.quit⟩
  | Cmd.unknown => ⟨s, ["Unrecognized. Try “help”."], none⟩

/-- The soft-reminder line the loop prints after a completed command. -/
def withReminder (r : SysRes) : SysRes :=
  match r.ex with
  | some _ => r
  | none =>
    if r.s.g.time ≤ 15 ∧ 0 < r.s.g.time then
      { r with out := r.out ++
          ["(Alarms intensify: " ++ toString r.s.g.time ++ " minutes left.)"] }
    else r

/-- One iteration of `Game.run`: dispatch, then the soft-reminder line when
the loop continues (the `go`-with-no-arguments branch `continue`s past it). -/
def stepSys (s : Sys) (c : Cmd) : SysRes :=
  match c with
  | Cmd.go [] => ⟨s, ["Go where? n/e/s/w"], none⟩
  | _ => withReminder (stepCore s c)

/-- Run a command list from a state, stopping at the first process exit. -/
def runCmds (s : Sys) : List Cmd → SysRes
  | [] => ⟨s, [], none⟩
  | c :: cs =>
    let r := stepSys s c
    match r.ex with
    | some e => ⟨r.s, r.out, some e⟩
    | none => runCmds r.s cs

/-! ### Shape of every non-persistence action

Every action handler other than `save`/`load` either returns the state
unchanged, or hands `spend` a state `g'` that agrees with `g` on the timer,
the killer, the evidence, the item table, the special room ids, and both key
lists. -/

def Mut (g g' : Game) : Prop :=
  (0 ≤ g.time → g'.time = g.time) ∧
  g'.killer_id = g.killer_id ∧
  g'.killer_evidence = g.killer_evidence ∧
  g'.items = g.items ∧
  g'.brigrm = g.brigrm ∧
  g'.cmdrm = g.cmdrm ∧
  g'.rooms.map Prod.fst = g.rooms.map Prod.fst ∧
  g'.npcs.map Prod.fst = g.npcs.map Prod.fst ∧
  ∀ x, (get_npc g x).arrested = true → (get_npc g' x).arrested = true

def Shape (g : Game) (g2 : Game) (ex : Option Exit) : Prop :=
  g2 = g ∨ ∃ g' m, 0 ≤ m ∧ Mut g g' ∧ g2 = (spend g' m).g ∧ ex = (spend g' m).ex

/-! ### `arrest` characterizations -/

/-- The state a successful arrest hands to `spend` (the body of `arrest`
between the `already restrained` check and the 3-minute cost): mark the
suspect arrested and in the brig, resync visibility, reveal the codes token
exactly when the suspect is the killer. -/
def arrestState (g : Game) (tid : String) : Game :=
  let npcs1 := alUpd g.npcs tid
    (fun m => { m with arrested := true, room := g.brigrm })
  let g := { g with npcs := npcs1 }
  let g := sync_npcs_in_room g
  if tid = g.killer_id then
    (if "codes_token" ∈ (get_room g g.brigrm).items then g
     else
       let rooms1 := alUpd g.rooms g.brigrm
         (fun r => { r with items := r.items ++ ["codes_token"] })
       { g with rooms := rooms1 })
  else g

/-! ### The game invariant tying the killer's arrest to the codes token -/

/-- Invariant of every reachable in-memory state: the static tables and
special room ids are the authored ones, the key lists are the authored ones,
the killer is arrested exactly when the codes token sits in the brig, the
codes token is never carried, arrested suspects are visible in no room, and
every visible-NPC list holds only suspect ids. -/
def Inv (g : Game) : Prop :=
  g.items = worldItems ∧
  g.brigrm = "brig" ∧
  g.cmdrm = "command" ∧
  g.rooms.map Prod.fst = roomIds ∧
  g.npcs.map Prod.fst = npcIds ∧
  ((get_npc g g.killer_id).arrested = true ↔
    "codes_token" ∈ (get_room g g.brigrm).items) ∧
  "codes_token" ∉ g.inv ∧
  (∀ nid, (get_npc g nid).arrested = true → ∀ p ∈ g.rooms, nid ∉ p.2.npcs) ∧
  (∀ p ∈ g.rooms, ∀ nid ∈ p.2.npcs, nid ∈ npcIds)

/-- Invariant of the whole process: the in-memory state satisfies `Inv` and
the save file, when present, is a snapshot the program itself saved of a
state satisfying `Inv`. -/
def SysInv (s : Sys) : Prop :=
  Inv s.g ∧ ∀ d, s.file = some d → ∃ g0, Inv g0 ∧ d = save_data g0

/-! ### Concrete run used by witnesses and counterexamples -/

/-- A concrete game: the generator draws index 0 for the killer (so the killer
is `voss`), positions (0,1,2) for every evidence sample, and the scatter draw
is never consulted; the save file starts empty. -/
def init0 : Sys := ⟨initGame 0 (fun _ => (0, 1, 2)) (fun _ => 0), none⟩

/-! ### Theorems -/

/-! ### Association-list lemmas -/

theorem alGet_nil {α : Type} (k : String) : alGet ([] : List (String × α)) k = none := rfl

theorem alGet_cons {α : Type} (p : String × α) (m : List (String × α)) (k : String) :
    alGet (p :: m) k = if p.1 = k then some p.2 else alGet m k := by
  by_cases h : p.1 = k
  · simp [alGet, List.find?_cons_of_pos, h]
  · simp only [alGet, List.find?_cons_of_neg, h]
    rw [List.find?_cons_of_neg]
    · simp [alGet]
    · simp [h]

theorem alUpd_cons {α : Type} (p : String × α) (m : List (String × α)) (k : String)
    (f : α → α) :
    alUpd (p :: m) k f = (if p.1 = k then (k, f p.2) else p) :: alUpd m k f := by
  by_cases h : p.1 = k <;> simp [alUpd, h]

theorem alGet_alUpd_self {α : Type} (m : List (String × α)) (k : String) (f : α → α) :
    alGet (alUpd m k f) k = (alGet m k).map f := by
  induction m with
  | nil => rfl
  | cons p t ih =>
    rw [alUpd_cons]
    by_cases h : p.1 = k
    · simp [alGet_cons, h]
    · simp [alGet_cons, h, ih]

theorem alGet_alUpd_ne {α : Type} (m : List (String × α)) (k k' : String) (f : α → α)
    (h : k' ≠ k) : alGet (alUpd m k f) k' = alGet m k' := by
  induction m with
  | nil => rfl
  | cons p t ih =>
    by_cases hp : p.1 = k
    · have h1 : ¬ (k = k') := fun hh => h hh.symm
      have h2 : ¬ (p.1 = k') := fun hh => h1 (hp ▸ hh)
      simp [alUpd_cons, alGet_cons, hp, h1, h2, ih]
    · by_cases hq : p.1 = k'
      · simp [alUpd_cons, alGet_cons, hp, hq, h]
      · simp [alUpd_cons, alGet_cons, hp, hq, ih]

theorem alUpd_keys {α : Type} (m : List (String × α)) (k : String) (f : α → α) :
    (alUpd m k f).map Prod.fst = m.map Prod.fst := by
  induction m with
  | nil => rfl
  | cons p t ih =>
    rw [alUpd_cons]
    by_cases h : p.1 = k <;> simp [h, ih]

theorem mem_alUpd_iff {α : Type} (m : List (String × α)) (k : String) (f : α → α)
    (q : String × α) :
    q ∈ alUpd m k f ↔ ∃ p ∈ m, q = (if p.1 = k then (k, f p.2) else p) := by
  unfold alUpd
  rw [List.mem_map]
  constructor
  · rintro ⟨p, hp, rfl⟩
    exact ⟨p, hp, by by_cases h : p.1 = k <;> simp [h]⟩
  · rintro ⟨p, hp, rfl⟩
    exact ⟨p, hp, by by_cases h : p.1 = k <;> simp [h]⟩

theorem alUpd_id {α : Type} (m : List (String × α)) (k : String) (f : α → α)
    (h : ∀ p ∈ m, p.1 = k → f p.2 = p.2) : alUpd m k f = m := by
  induction m with
  | nil => rfl
  | cons p t ih =>
    rw [alUpd_cons]
    by_cases hp : p.1 = k
    · subst hp
      rw [if_pos rfl, h p (List.mem_cons_self p t) rfl,
        ih (fun q hq hqk => h q (List.mem_cons_of_mem p hq) hqk)]
    · rw [if_neg hp, ih (fun q hq hqk => h q (List.mem_cons_of_mem p hq) hqk)]

theorem alGet_map_snd {α β : Type} (m : List (String × α)) (f : α → β) (k : String) :
    alGet (m.map (fun p => (p.1, f p.2))) k = (alGet m k).map f := by
  induction m with
  | nil => rfl
  | cons p t ih =>
    by_cases h : p.1 = k <;> simp [alGet_cons, h, ih]

theorem alGet_map_keyed {α β : Type} (m : List (String × α)) (f : String → α → β)
    (k : String) :
    alGet (m.map (fun p => (p.1, f p.1 p.2))) k = (alGet m k).map (f k) := by
  induction m with
  | nil => rfl
  | cons p t ih =>
    by_cases h : p.1 = k
    · subst h
      simp [alGet_cons]
    · simp [alGet_cons, h, ih]

theorem alGet_eq_some_of_mem_nodup {α : Type} (m : List (String × α)) (k : String) (v : α)
    (hmem : (k, v) ∈ m) (hnd : (m.map Prod.fst).Nodup) : alGet m k = some v := by
  induction m with
  | nil => cases hmem
  | cons p t ih =>
    rcases List.mem_cons.mp hmem with h | h
    · rw [← h]
      simp [alGet_cons]
    · have hk : k ∈ t.map Prod.fst := List.mem_map.mpr ⟨(k, v), h, rfl⟩
      have hp : p.1 ≠ k := by
        intro hc
        rw [List.map_cons, List.nodup_cons] at hnd
        exact hnd.1 (hc ▸ hk)
      rw [alGet_cons, if_neg hp]
      exact ih h (by rw [List.map_cons, List.nodup_cons] at hnd; exact hnd.2)

theorem alGet_isSome_of_mem_keys {α : Type} (m : List (String × α)) (k : String)
    (h : k ∈ m.map Prod.fst) : (alGet m k).isSome := by
  induction m with
  | nil => simp at h
  | cons p t ih =>
    by_cases hp : p.1 = k
    · simp [alGet_cons, hp]
    · rw [alGet_cons, if_neg hp]
      rcases List.mem_map.mp h with ⟨q, hq, hqk⟩
      rcases List.mem_cons.mp hq with h1 | h1
      · exact absurd (h1 ▸ hqk) hp
      · exact ih (List.mem_map.mpr ⟨q, h1, hqk⟩)

theorem mem_of_alGet_eq_some {α : Type} (m : List (String × α)) (k : String) (v : α)
    (h : alGet m k = some v) : (k, v) ∈ m := by
  induction m with
  | nil => cases h
  | cons p t ih =>
    rw [alGet_cons] at h
    by_cases hp : p.1 = k
    · rw [if_pos hp] at h
      subst hp
      cases h
      exact List.mem_cons_self _ _
    · rw [if_neg hp] at h
      exact List.mem_cons_of_mem _ (ih h)

/-! ### `find?` helper -/

theorem find?_eq_some_split {α : Type} (p : α → Bool) (l : List α) (a : α)
    (h : l.find? p = some a) :
    p a = true ∧ a ∈ l ∧ ∃ l₁ l₂, l = l₁ ++ a :: l₂ ∧ ∀ x ∈ l₁, p x = false := by
  refine ⟨List.find?_some h, List.mem_of_find?_eq_some h, ?_⟩
  induction l with
  | nil => cases h
  | cons b t ih =>
    by_cases hb : p b
    · rw [List.find?_cons_of_pos _ hb] at h
      cases h
      exact ⟨[], t, rfl, by simp⟩
    · rw [List.find?_cons_of_neg _ (by simpa using hb)] at h
      rcases ih h with ⟨l₁, l₂, rfl, hl₁⟩
      exact ⟨b :: l₁, l₂, rfl, by
        intro x hx
        rcases List.mem_cons.mp hx with rfl | hx
        · simpa using hb
        · exact hl₁ x hx⟩

/-! ### `spend` lemmas -/

theorem spend_g (g : Game) (m : Int) :
    (spend g m).g = { g with time := max 0 (g.time - m) } := by
  unfold spend
  by_cases h : max 0 (g.time - m) = 0 <;> simp [h]

theorem spend_time (g : Game) (m : Int) : (spend g m).g.time = max 0 (g.time - m) := by
  rw [spend_g]

theorem spend_time_nonneg (g : Game) (m : Int) : 0 ≤ (spend g m).g.time := by
  rw [spend_time]
  exact le_max_left 0 _

theorem spend_ex_iff (g : Game) (m : Int) :
    (spend g m).ex = some Exit.lose ↔ max 0 (g.time - m) = 0 := by
  unfold spend
  by_cases h : max 0 (g.time - m) = 0 <;> simp [h]

theorem spend_ex_none_iff (g : Game) (m : Int) :
    (spend g m).ex = none ↔ max 0 (g.time - m) ≠ 0 := by
  unfold spend
  by_cases h : max 0 (g.time - m) = 0 <;> simp [h]

theorem spend_time_le (g : Game) (m : Int) (hg : 0 ≤ g.time) (hm : 0 ≤ m) :
    (spend g m).g.time ≤ g.time := by
  rw [spend_time]
  exact max_le hg (by omega)

theorem spend_pos_of_none (g : Game) (m : Int) (h : (spend g m).ex = none) :
    1 ≤ (spend g m).g.time := by
  have h1 := (spend_ex_none_iff g m).mp h
  have h2 := spend_time_nonneg g m
  rw [spend_time] at h2 ⊢
  omega

/-! ### fold lemmas for `load_from` and `save_data` -/

theorem foldl_id {α γ : Type} (F : α → γ → α) (l : List γ) (a : α)
    (h : ∀ c ∈ l, F a c = a) : l.foldl F a = a := by
  induction l with
  | nil => rfl
  | cons c t ih =>
    rw [List.foldl_cons, h c (List.mem_cons_self c t),
      ih (fun c hc => h c (List.mem_cons_of_mem _ hc))]

theorem foldl_game_rooms (l : List (String × List String × List String)) (g : Game) :
    l.foldl (fun g p =>
        let rooms1 := alUpd g.rooms p.1 (fun r => { r with items := p.2.1, npcs := p.2.2 })
        { g with rooms := rooms1 }) g
      = { g with rooms := l.foldl (fun m p =>
          alUpd m p.1 (fun r => { r with items := p.2.1, npcs := p.2.2 })) g.rooms } := by
  induction l generalizing g with
  | nil => rfl
  | cons c t ih => rw [List.foldl_cons, List.foldl_cons, ih]

theorem foldl_game_npcs (l : List (String × String × Bool × Bool)) (g : Game) :
    l.foldl (fun g p =>
        let npcs1 := alUpd g.npcs p.1
          (fun n => { n with room := p.2.1, arrested := p.2.2.1, cooperative := p.2.2.2 })
        { g with npcs := npcs1 }) g
      = { g with npcs := l.foldl (fun m p =>
          alUpd m p.1 (fun n =>
            { n with room := p.2.1, arrested := p.2.2.1, cooperative := p.2.2.2 })) g.npcs } := by
  induction l generalizing g with
  | nil => rfl
  | cons c t ih => rw [List.foldl_cons, List.foldl_cons, ih]

theorem alGet_foldl_alUpd_not_mem {α β : Type} (upd : α → β → α) (l : List (String × β))
    (m : List (String × α)) (k : String) (hk : k ∉ l.map Prod.fst) :
    alGet (l.foldl (fun m p => alUpd m p.1 (fun v => upd v p.2)) m) k = alGet m k := by
  induction l generalizing m with
  | nil => rfl
  | cons c t ih =>
    rw [List.foldl_cons, ih _ (fun h => hk (List.mem_cons_of_mem _ h))]
    exact alGet_alUpd_ne _ _ _ _ (fun h => hk (List.mem_cons.mpr (Or.inl h)))

theorem alGet_foldl_alUpd {α β : Type} (upd : α → β → α) (l : List (String × β))
    (m : List (String × α)) (k : String) (hl : (l.map Prod.fst).Nodup) :
    alGet (l.foldl (fun m p => alUpd m p.1 (fun v => upd v p.2)) m) k =
      (match alGet l k with
       | some b => (alGet m k).map (fun v => upd v b)
       | none => alGet m k) := by
  induction l generalizing m with
  | nil => rfl
  | cons c t ih =>
    rw [List.map_cons, List.nodup_cons] at hl
    by_cases hc : c.1 = k
    · have hkt : k ∉ t.map Prod.fst := hc ▸ hl.1
      rw [List.foldl_cons, alGet_foldl_alUpd_not_mem _ _ _ _ hkt, alGet_cons, if_pos hc,
        ← hc, alGet_alUpd_self]
    · rw [List.foldl_cons, ih _ hl.2, alGet_cons, if_neg hc]
      cases h : alGet t k with
      | none => exact alGet_alUpd_ne _ _ _ _ (fun hh => hc hh.symm)
      | some b => rw [alGet_alUpd_ne _ _ _ _ (fun hh => hc hh.symm)]

theorem alGet_foldl_alUpd_some {α β : Type} (upd : α → β → α) (l : List (String × β))
    (m : List (String × α)) (k : String) (hl : (l.map Prod.fst).Nodup)
    (b : β) (hb : alGet l k = some b) :
    alGet (l.foldl (fun m p => alUpd m p.1 (fun v => upd v p.2)) m) k =
      (alGet m k).map (fun v => upd v b) := by
  rw [alGet_foldl_alUpd upd l m k hl, hb]

theorem alGet_foldl_alUpd_none {α β : Type} (upd : α → β → α) (l : List (String × β))
    (m : List (String × α)) (k : String) (hl : (l.map Prod.fst).Nodup)
    (hb : alGet l k = none) :
    alGet (l.foldl (fun m p => alUpd m p.1 (fun v => upd v p.2)) m) k = alGet m k := by
  rw [alGet_foldl_alUpd upd l m k hl, hb]

theorem foldl_keys_alUpd {α β : Type} (upd : α → β → α) (l : List (String × β))
    (m : List (String × α)) :
    (l.foldl (fun m p => alUpd m p.1 (fun v => upd v p.2)) m).map Prod.fst =
      m.map Prod.fst := by
  induction l generalizing m with
  | nil => rfl
  | cons c t ih => rw [List.foldl_cons, ih, alUpd_keys]

/-! ### `sync_npcs_in_room` lemmas -/

theorem keys_map_keyed {α β : Type} (l : List (String × α)) (f : String × α → β) :
    (l.map (fun p => (p.1, f p))).map Prod.fst = l.map Prod.fst := by
  induction l with
  | nil => rfl
  | cons p t ih => simp [ih]

theorem sync_time (g : Game) : (sync_npcs_in_room g).time = g.time := rfl

theorem sync_npcs_map (g : Game) : (sync_npcs_in_room g).npcs = g.npcs := rfl

theorem sync_brigrm (g : Game) : (sync_npcs_in_room g).brigrm = g.brigrm := rfl

theorem sync_inv (g : Game) : (sync_npcs_in_room g).inv = g.inv := rfl

theorem sync_killer (g : Game) : (sync_npcs_in_room g).killer_id = g.killer_id := rfl

theorem sync_rooms_keys (g : Game) :
    (sync_npcs_in_room g).rooms.map Prod.fst = g.rooms.map Prod.fst :=
  keys_map_keyed _ _

theorem alGet_sync_rooms (g : Game) (rid : String) :
    alGet (sync_npcs_in_room g).rooms rid = (alGet g.rooms rid).map
      (fun r => { r with npcs :=
        (g.npcs.filter (fun q => q.2.room == rid && !q.2.arrested)).map Prod.fst }) := by
  unfold sync_npcs_in_room
  exact alGet_map_keyed g.rooms
    (fun k (v : Room) => { v with npcs :=
      (g.npcs.filter (fun (q : String × NPC) =>
        q.2.room == k && !q.2.arrested)).map Prod.fst }) rid

theorem arrested_alUpd_pres (m : List (String × NPC)) (k : String) (f : NPC → NPC)
    (hf : ∀ n, (f n).arrested = n.arrested) (x : String) :
    ((alGet (alUpd m k f) x).getD defaultNPC).arrested =
      ((alGet m x).getD defaultNPC).arrested := by
  by_cases hx : x = k
  · subst hx
    rw [alGet_alUpd_self]
    cases alGet m x with
    | none => rfl
    | some n => exact hf n
  · rw [alGet_alUpd_ne _ _ _ _ hx]

theorem arrested_alUpd_set (m : List (String × NPC)) (k : String) (brig : String)
    (x : String) (h : ((alGet m x).getD defaultNPC).arrested = true) :
    ((alGet (alUpd m k (fun n => { n with arrested := true, room := brig })) x).getD
      defaultNPC).arrested = true := by
  by_cases hx : x = k
  · subst hx
    rw [alGet_alUpd_self]
    cases hm : alGet m x with
    | none =>
      rw [hm] at h
      exact absurd h (by decide)
    | some n => rfl
  · rw [alGet_alUpd_ne _ _ _ _ hx]
    exact h

theorem mut_refl (g : Game) : Mut g g :=
  ⟨fun _ => rfl, rfl, rfl, rfl, rfl, rfl, rfl, rfl, fun _ h => h⟩

theorem shape_look (g : Game) : Shape g (look g).g (look g).ex :=
  Or.inr ⟨g, 0, le_refl 0, mut_refl g, rfl, rfl⟩

theorem shape_show_map (g : Game) : Shape g (show_map g).g (show_map g).ex :=
  Or.inr ⟨g, 0, le_refl 0, mut_refl g, rfl, rfl⟩

theorem shape_show_time (g : Game) : Shape g (show_time g).g (show_time g).ex :=
  Or.inr ⟨g, 0, le_refl 0, mut_refl g, rfl, rfl⟩

theorem shape_inv_show (g : Game) : Shape g (inv_show g).g (inv_show g).ex :=
  Or.inr ⟨g, 0, le_refl 0, mut_refl g, rfl, rfl⟩

theorem shape_take (g : Game) (args : List String) :
    Shape g (take g args).g (take g args).ex := by
  unfold take
  rcases args with _ | ⟨a, rest⟩
  · exact Or.inl rfl
  · dsimp only
    split
    · exact Or.inl rfl
    · split
      · exact Or.inl rfl
      · refine Or.inr ⟨_, 1, by norm_num, ?_, rfl, rfl⟩
        refine ⟨fun _ => rfl, rfl, rfl, rfl, rfl, rfl, ?_, rfl, fun _ h => h⟩
        dsimp only [updCurrentRoom]
        exact alUpd_keys _ _ _

theorem shape_drop (g : Game) (args : List String) :
    Shape g (drop g args).g (drop g args).ex := by
  unfold drop
  rcases args with _ | ⟨a, rest⟩
  · exact Or.inl rfl
  · dsimp only
    split
    · exact Or.inl rfl
    · refine Or.inr ⟨_, 1, by norm_num, ?_, rfl, rfl⟩
      refine ⟨fun _ => rfl, rfl, rfl, rfl, rfl, rfl, ?_, rfl, fun _ h => h⟩
      dsimp only [updCurrentRoom]
      exact alUpd_keys _ _ _

theorem shape_inspect (g : Game) (args : List String) :
    Shape g (inspect g args).g (inspect g args).ex := by
  unfold inspect
  rcases args with _ | ⟨a, rest⟩
  · exact Or.inl rfl
  · dsimp only
    split
    · exact Or.inr ⟨g, 1, by norm_num, mut_refl g, rfl, rfl⟩
    · split
      · exact Or.inr ⟨g, 1, by norm_num, mut_refl g, rfl, rfl⟩
      · exact Or.inl rfl

theorem shape_talk (g : Game) (args : List String) (flip : Bool) :
    Shape g (talk g args flip).g (talk g args flip).ex := by
  unfold talk
  rcases args with _ | ⟨a, rest⟩
  · exact Or.inl rfl
  · dsimp only
    split
    · exact Or.inl rfl
    · refine Or.inr ⟨_, 2, by norm_num, ?_, rfl, rfl⟩
      split
      · refine ⟨fun _ => rfl, rfl, rfl, rfl, rfl, rfl, rfl, ?_, ?_⟩ <;> dsimp only
        · exact alUpd_keys _ _ _
        · intro x hx
          unfold get_npc at hx ⊢
          dsimp only
          rw [arrested_alUpd_pres g.npcs _ (fun m => { m with cooperative := true })
            (fun n => rfl) x]
          exact hx
      · exact mut_refl g

theorem shape_accuse (g : Game) (args : List String) :
    Shape g (accuse g args).g (accuse g args).ex := by
  unfold accuse
  rcases args with _ | ⟨a, rest⟩
  · exact Or.inl rfl
  · dsimp only
    split
    · exact Or.inl rfl
    · exact Or.inr ⟨g, 3, by norm_num, mut_refl g, rfl, rfl⟩

theorem shape_arrest (g : Game) (args : List String) :
    Shape g (arrest g args).g (arrest g args).ex := by
  unfold arrest
  rcases args with _ | ⟨a, rest⟩
  · exact Or.inl rfl
  · dsimp only
    split
    · split
      · exact Or.inl rfl
      · split
        · exact Or.inl rfl
        · split
          · split
            · refine Or.inr ⟨_, 3, by norm_num, ?_, rfl, rfl⟩
              refine ⟨fun _ => rfl, rfl, rfl, rfl, rfl, rfl, ?_, ?_, ?_⟩ <;> dsimp only [sync_npcs_in_room]
              · exact keys_map_keyed _ _
              · exact alUpd_keys _ _ _
              · intro x hx
                unfold get_npc at hx ⊢
                exact arrested_alUpd_set _ _ _ x hx
            · refine Or.inr ⟨_, 3, by norm_num, ?_, rfl, rfl⟩
              refine ⟨fun _ => rfl, rfl, rfl, rfl, rfl, rfl, ?_, ?_, ?_⟩ <;> dsimp only [sync_npcs_in_room]
              · exact (alUpd_keys _ _ _).trans (keys_map_keyed _ _)
              · exact alUpd_keys _ _ _
              · intro x hx
                unfold get_npc at hx ⊢
                exact arrested_alUpd_set _ _ _ x hx
          · refine Or.inr ⟨_, 3, by norm_num, ?_, rfl, rfl⟩
            refine ⟨fun _ => rfl, rfl, rfl, rfl, rfl, rfl, ?_, ?_, ?_⟩ <;> dsimp only [sync_npcs_in_room]
            · exact keys_map_keyed _ _
            · exact alUpd_keys _ _ _
            · intro x hx
              unfold get_npc at hx ⊢
              exact arrested_alUpd_set _ _ _ x hx
    · exact Or.inl rfl

theorem shape_use_console (g : Game) :
    Shape g (use_console g).g (use_console g).ex := by
  unfold use_console
  split
  · split
    · exact Or.inl rfl
    · exact Or.inr ⟨g, 1, by norm_num, mut_refl g, rfl, rfl⟩
  · exact Or.inl rfl

theorem look_g (g : Game) : (look g).g = (spend g 0).g := rfl

theorem look_ex (g : Game) : (look g).ex = (spend g 0).ex := rfl

theorem shape_move (g : Game) (d : String) :
    Shape g (move g d).g (move g d).ex := by
  unfold move
  dsimp only
  split
  · exact Or.inl rfl
  · split
    · exact Or.inl rfl
    · split
      · rename_i target heq r1 e hex
        refine Or.inr ⟨_, 0, le_refl 0, ?_, by rw [← look_g], ?_⟩
        · refine ⟨fun _ => rfl, rfl, rfl, rfl, rfl, rfl, ?_, rfl, fun _ h => h⟩
          dsimp only
          exact (sync_rooms_keys _).trans rfl
        · rw [← look_ex, hex]
      · rename_i target heq r1 hex
        refine Or.inr ⟨_, 2, by norm_num, ?_, rfl, rfl⟩
        rw [look_g, spend_g]
        refine ⟨fun h => ?_, rfl, rfl, rfl, rfl, rfl, ?_, rfl, fun _ h => h⟩
        · show max 0 (g.time - 0) = g.time
          rw [Int.sub_zero]
          exact max_eq_right h
        · dsimp only
          exact (sync_rooms_keys _).trans rfl

theorem withReminder_s (r : SysRes) :
    (withReminder r).s = r.s ∧ (withReminder r).ex = r.ex := by
  unfold withReminder
  split
  · exact ⟨rfl, rfl⟩
  · split
    · exact ⟨rfl, rfl⟩
    · exact ⟨rfl, rfl⟩

theorem stepSys_s_eq (s : Sys) (c : Cmd) :
    (stepSys s c).s = (stepCore s c).s ∧ (stepSys s c).ex = (stepCore s c).ex := by
  cases c
  case go args =>
    cases args with
    | nil => exact ⟨rfl, rfl⟩
    | cons a rest => exact withReminder_s _
  all_goals exact withReminder_s _

theorem shape_stepSys (s : Sys) (c : Cmd) (h1 : c ≠ Cmd.save) (h2 : c ≠ Cmd.load) :
    Shape s.g (stepSys s c).s.g (stepSys s c).ex ∧ (stepSys s c).s.file = s.file := by
  rcases stepSys_s_eq s c with ⟨hs, he⟩
  rw [hs, he]
  cases c with
  | help => exact ⟨Or.inl rfl, rfl⟩
  | look => exact ⟨shape_look s.g, rfl⟩
  | showMap => exact ⟨shape_show_map s.g, rfl⟩
  | showTime => exact ⟨shape_show_time s.g, rfl⟩
  | go args =>
    cases args with
    | nil => exact ⟨Or.inl rfl, rfl⟩
    | cons a rest => exact ⟨shape_move s.g a, rfl⟩
  | take args => exact ⟨shape_take s.g args, rfl⟩
  | drop args => exact ⟨shape_drop s.g args, rfl⟩
  | invShow => exact ⟨shape_inv_show s.g, rfl⟩
  | inspect args => exact ⟨shape_inspect s.g args, rfl⟩
  | talk args flip => exact ⟨shape_talk s.g args flip, rfl⟩
  | accuse args => exact ⟨shape_accuse s.g args, rfl⟩
  | arrest args => exact ⟨shape_arrest s.g args, rfl⟩
  | useConsole => exact ⟨shape_use_console s.g, rfl⟩
  | save => exact absurd rfl h1
  | load => exact absurd rfl h2
  | quit => exact ⟨Or.inl rfl, rfl⟩
  | unknown => exact ⟨Or.inl rfl, rfl⟩

theorem shape_time (g g2 : Game) (ex : Option Exit) (hs : Shape g g2 ex)
    (hg : 0 ≤ g.time) : g2.time ≤ g.time ∧ 0 ≤ g2.time := by
  rcases hs with rfl | ⟨g', m, hm0, hmut, rfl, -⟩
  · exact ⟨le_refl _, hg⟩
  · have ht := hmut.1 hg
    refine ⟨?_, spend_time_nonneg _ _⟩
    rw [spend_time, ht]
    exact max_le hg (by omega)

theorem shape_killer (g g2 : Game) (ex : Option Exit) (hs : Shape g g2 ex) :
    g2.killer_id = g.killer_id := by
  rcases hs with rfl | ⟨g', m, hm0, hmut, rfl, -⟩
  · rfl
  · rw [spend_g]
    exact hmut.2.1

theorem shape_pos (g g2 : Game) (ex : Option Exit) (hs : Shape g g2 ex)
    (hg : 1 ≤ g.time) (hex : ex = none) : 1 ≤ g2.time := by
  rcases hs with rfl | ⟨g', m, hm0, hmut, rfl, rfl⟩
  · exact hg
  · exact spend_pos_of_none _ _ hex

theorem load_from_time (g : Game) (d : SaveData) : (load_from g d).time = d.time := by
  unfold load_from
  dsimp only
  rw [foldl_game_rooms, foldl_game_npcs]

theorem load_from_fields (g : Game) (d : SaveData) :
    (load_from g d).time = d.time ∧
    (load_from g d).player_room = d.player_room ∧
    (load_from g d).inv = d.inv ∧
    (load_from g d).killer_id = d.killer ∧
    (load_from g d).killer_evidence = d.killer_evidence ∧
    (load_from g d).items = g.items ∧
    (load_from g d).brigrm = g.brigrm ∧
    (load_from g d).cmdrm = g.cmdrm ∧
    (load_from g d).rooms = d.rooms.foldl (fun m p =>
      alUpd m p.1 (fun r => { r with items := p.2.1, npcs := p.2.2 })) g.rooms ∧
    (load_from g d).npcs = d.npcs.foldl (fun m p =>
      alUpd m p.1 (fun n =>
        { n with room := p.2.1, arrested := p.2.2.1, cooperative := p.2.2.2 })) g.npcs := by
  unfold load_from
  dsimp only
  rw [foldl_game_rooms, foldl_game_npcs]
  exact ⟨rfl, rfl, rfl, rfl, rfl, rfl, rfl, rfl, rfl, rfl⟩

theorem mem_sync_list (g : Game) (rid nid : String) :
    nid ∈ (g.npcs.filter (fun q => q.2.room == rid && !q.2.arrested)).map Prod.fst ↔
      ∃ n, (nid, n) ∈ g.npcs ∧ n.room = rid ∧ n.arrested = false := by
  rw [List.mem_map]
  constructor
  · rintro ⟨q, hq, rfl⟩
    rw [List.mem_filter] at hq
    refine ⟨q.2, ?_, ?_, ?_⟩
    · exact hq.1
    · have := hq.2
      simp only [Bool.and_eq_true, beq_iff_eq, Bool.not_eq_true'] at this
      exact this.1
    · have := hq.2
      simp only [Bool.and_eq_true, beq_iff_eq, Bool.not_eq_true'] at this
      exact this.2
  · rintro ⟨n, hn, hroom, harr⟩
    exact ⟨(nid, n), List.mem_filter.mpr ⟨hn, by simp [hroom, harr]⟩, rfl⟩

/-! ### `seed_case` field lemmas -/

theorem scatter_foldl_fields (l : List String) (dr : List String) (sc : String → Nat)
    (g : Game) :
    (l.foldl (fun g iid =>
      if g.rooms.any (fun p => p.2.items.contains iid) then g
      else
        let rooms1 := alUpd g.rooms (dr.getD (sc iid) "")
          (fun r => { r with items := r.items ++ [iid] })
        { g with rooms := rooms1 }) g).killer_id = g.killer_id ∧
    (l.foldl (fun g iid =>
      if g.rooms.any (fun p => p.2.items.contains iid) then g
      else
        let rooms1 := alUpd g.rooms (dr.getD (sc iid) "")
          (fun r => { r with items := r.items ++ [iid] })
        { g with rooms := rooms1 }) g).killer_evidence = g.killer_evidence ∧
    (l.foldl (fun g iid =>
      if g.rooms.any (fun p => p.2.items.contains iid) then g
      else
        let rooms1 := alUpd g.rooms (dr.getD (sc iid) "")
          (fun r => { r with items := r.items ++ [iid] })
        { g with rooms := rooms1 }) g).time = g.time ∧
    (l.foldl (fun g iid =>
      if g.rooms.any (fun p => p.2.items.contains iid) then g
      else
        let rooms1 := alUpd g.rooms (dr.getD (sc iid) "")
          (fun r => { r with items := r.items ++ [iid] })
        { g with rooms := rooms1 }) g).npcs = g.npcs := by
  induction l generalizing g with
  | nil => exact ⟨rfl, rfl, rfl, rfl⟩
  | cons c t ih =>
    rw [List.foldl_cons]
    rcases ih (if g.rooms.any (fun p => p.2.items.contains c) then g
      else
        let rooms1 := alUpd g.rooms (dr.getD (sc c) "")
          (fun r => { r with items := r.items ++ [c] })
        { g with rooms := rooms1 }) with ⟨h1, h2, h3, h4⟩
    refine ⟨h1.trans ?_, h2.trans ?_, h3.trans ?_, h4.trans ?_⟩ <;>
      (split <;> rfl)

theorem initGame_fields (k : Nat) (sel : String → Nat × Nat × Nat) (sc : String → Nat) :
    (initGame k sel sc).killer_id = npcIds.getD k "" ∧
    (initGame k sel sc).killer_evidence =
      npcIds.map (fun sus => (sus, sample3 ((alGet evidence_pool sus).getD []) (sel sus))) ∧
    (initGame k sel sc).time = 60 ∧
    (initGame k sel sc).npcs = worldNpcs := by
  unfold initGame seed_case
  dsimp only
  rcases scatter_foldl_fields
    ((build_world.items.filter (fun p => p.2.portable && p.1 != "codes_token")).map Prod.fst)
    ((build_world.rooms.map Prod.fst).filter
      (fun rid => rid != build_world.brigrm && rid != build_world.cmdrm))
    sc _ with ⟨h1, h2, h3, h4⟩
  exact ⟨h1.trans rfl, h2.trans rfl, h3.trans rfl, h4.trans rfl⟩

theorem alGet_map_self {α : Type} (l : List String) (F : String → α) (k : String)
    (hk : k ∈ l) : alGet (l.map (fun x => (x, F x))) k = some (F k) := by
  induction l with
  | nil => cases hk
  | cons a t ih =>
    rcases List.mem_cons.mp hk with rfl | h
    · simp [alGet_cons]
    · by_cases ha : a = k
      · subst ha
        simp [alGet_cons]
      · rw [List.map_cons, alGet_cons, if_neg ha]
        exact ih h

/-- What `random.sample(pool, 3)` puts in an evidence set: 3 entries, pairwise
distinct whenever the population has no duplicates, all drawn from the
population. -/
theorem sample3_spec (pool : List String) (s3 : Nat × Nat × Nat) (hnd : pool.Nodup)
    (hok : SelOK pool s3) :
    (sample3 pool s3).length = 3 ∧ (sample3 pool s3).Nodup ∧
      ∀ i ∈ sample3 pool s3, i ∈ pool := by
  obtain ⟨a, b, c⟩ := s3
  obtain ⟨ha, hb, hc, hab, hac, hbc⟩ := hok
  unfold sample3
  dsimp only at *
  rw [List.getD_eq_getElem pool "" ha, List.getD_eq_getElem pool "" hb,
    List.getD_eq_getElem pool "" hc]
  refine ⟨rfl, ?_, ?_⟩
  · have h1 : pool[a] ≠ pool[b] := fun hcon => hab (hnd.getElem_inj_iff.mp hcon)
    have h2 : pool[a] ≠ pool[c] := fun hcon => hac (hnd.getElem_inj_iff.mp hcon)
    have h3 : pool[b] ≠ pool[c] := fun hcon => hbc (hnd.getElem_inj_iff.mp hcon)
    simp [List.nodup_cons, h1, h2, h3]
  · intro i hi
    rcases List.mem_cons.mp hi with rfl | hi
    · exact List.getElem_mem ha
    rcases List.mem_cons.mp hi with rfl | hi
    · exact List.getElem_mem hb
    rcases List.mem_cons.mp hi with rfl | hi
    · exact List.getElem_mem hc
    · cases hi

/-! ### `take` / `drop` characterizations -/

theorem find?_append_of_none {α : Type} (l1 l2 : List α) (p : α → Bool)
    (h : ∀ x ∈ l1, p x = false) : (l1 ++ l2).find? p = l2.find? p := by
  induction l1 with
  | nil => rfl
  | cons a t ih =>
    rw [List.cons_append, List.find?_cons_of_neg]
    · exact ih (fun x hx => h x (List.mem_cons_of_mem a hx))
    · simp [h a (List.mem_cons_self a t)]

theorem itemMatches_congr (g g' : Game) (h : g'.items = g.items) (i name : String) :
    itemMatches g' i name = itemMatches g i name := by
  unfold itemMatches get_item
  rw [h]

theorem take_some_eq (g : Game) (a : String) (rest : List String) (iid : String)
    (hfind : (current_room g).items.find?
      (fun i => itemMatches g i (joinLower (a :: rest))) = some iid)
    (hport : (get_item g iid).portable = true) :
    (take g (a :: rest)).g =
      { g with
        rooms := alUpd g.rooms g.player_room
          (fun rm => { rm with items := rm.items.erase iid }),
        inv := g.inv ++ [iid],
        time := max 0 (g.time - 1) } ∧
    (take g (a :: rest)).ex =
      (spend { g with
        rooms := alUpd g.rooms g.player_room
          (fun rm => { rm with items := rm.items.erase iid }),
        inv := g.inv ++ [iid] } 1).ex ∧
    (take g (a :: rest)).out.head? =
      some ("You take the " ++ (get_item g iid).name ++ ".") := by
  unfold take
  dsimp only
  rw [hfind]
  dsimp only
  rw [if_neg (by simp [hport])]
  refine ⟨?_, rfl, rfl⟩
  rw [spend_g]
  rfl

theorem take_none_eq (g : Game) (a : String) (rest : List String)
    (hfind : (current_room g).items.find?
      (fun i => itemMatches g i (joinLower (a :: rest))) = none) :
    take g (a :: rest) = ⟨g, ["Not here."], none⟩ := by
  unfold take
  dsimp only
  rw [hfind]

theorem drop_some_eq (g : Game) (a : String) (rest : List String) (iid : String)
    (hfind : g.inv.find? (fun i => itemMatches g i (joinLower (a :: rest))) = some iid) :
    (drop g (a :: rest)).g =
      { g with
        rooms := alUpd g.rooms g.player_room
          (fun rm => { rm with items := rm.items ++ [iid] }),
        inv := g.inv.erase iid,
        time := max 0 (g.time - 1) } ∧
    (drop g (a :: rest)).ex =
      (spend { g with
        rooms := alUpd g.rooms g.player_room
          (fun rm => { rm with items := rm.items ++ [iid] }),
        inv := g.inv.erase iid } 1).ex := by
  unfold drop
  dsimp only
  rw [hfind]
  dsimp only
  refine ⟨?_, rfl⟩
  rw [spend_g]
  rfl

theorem drop_none_eq (g : Game) (a : String) (rest : List String)
    (hfind : g.inv.find? (fun i => itemMatches g i (joinLower (a :: rest))) = none) :
    drop g (a :: rest) = ⟨g, ["You don’t have that."], none⟩ := by
  unfold drop
  dsimp only
  rw [hfind]

/-! ### `inspect` characterizations -/

theorem inspect_nothing_eq (g : Game) (a : String) (rest : List String)
    (hitem : (g.inv ++ (current_room g).items).find?
      (fun i => itemMatches g i (joinLower (a :: rest))) = none)
    (hnpc : (current_room g).npcs.find?
      (fun nid => npcMatches g nid (joinLower (a :: rest))) = none) :
    inspect g (a :: rest) = ⟨g, ["You find nothing notable."], none⟩ := by
  unfold inspect
  dsimp only
  rw [hitem]
  dsimp only
  rw [hnpc]

theorem inspect_item_eq (g : Game) (a : String) (rest : List String) (i : String)
    (hitem : (g.inv ++ (current_room g).items).find?
      (fun j => itemMatches g j (joinLower (a :: rest))) = some i) :
    (inspect g (a :: rest)).g = { g with time := max 0 (g.time - 1) } ∧
    (inspect g (a :: rest)).out.head? = some
      (if ((alGet g.killer_evidence g.killer_id).getD []).contains i then
        (get_item g i).desc ++
          " (Something about this ties uncomfortably close to the killer.)"
      else (get_item g i).desc) := by
  unfold inspect
  dsimp only
  rw [hitem]
  dsimp only
  refine ⟨?_, ?_⟩
  · rw [spend_g]
  · split <;> rfl

theorem get_room_sync_items (g : Game) (rid : String) :
    (get_room (sync_npcs_in_room g) rid).items = (get_room g rid).items := by
  unfold get_room
  rw [alGet_sync_rooms]
  cases alGet g.rooms rid <;> rfl

theorem arrest_no_cuffs (g : Game) (a : String) (rest : List String)
    (h : "cuffs" ∉ g.inv) :
    arrest g (a :: rest) = ⟨g, ["You need Restraint Cuffs to arrest."], none⟩ := by
  unfold arrest
  dsimp only
  rw [if_neg h]

theorem arrest_not_here (g : Game) (a : String) (rest : List String)
    (hc : "cuffs" ∈ g.inv)
    (hfind : (current_room g).npcs.find?
      (fun nid => npcMatches g nid (joinLower (a :: rest))) = none) :
    arrest g (a :: rest) = ⟨g, ["They aren’t here."], none⟩ := by
  unfold arrest
  dsimp only
  rw [if_pos hc, hfind]

theorem arrest_already (g : Game) (a : String) (rest : List String) (tid : String)
    (hc : "cuffs" ∈ g.inv)
    (hfind : (current_room g).npcs.find?
      (fun nid => npcMatches g nid (joinLower (a :: rest))) = some tid)
    (harr : (get_npc g tid).arrested = true) :
    arrest g (a :: rest) = ⟨g, ["Already restrained."], none⟩ := by
  unfold arrest
  dsimp only
  rw [if_pos hc, hfind]
  dsimp only
  rw [if_pos harr]

theorem arrest_success_eq (g : Game) (a : String) (rest : List String) (tid : String)
    (hc : "cuffs" ∈ g.inv)
    (hfind : (current_room g).npcs.find?
      (fun nid => npcMatches g nid (joinLower (a :: rest))) = some tid)
    (harr : (get_npc g tid).arrested = false) :
    (arrest g (a :: rest)).g = (spend (arrestState g tid) 3).g ∧
    (arrest g (a :: rest)).ex = (spend (arrestState g tid) 3).ex := by
  unfold arrest arrestState
  dsimp only
  rw [if_pos hc, hfind]
  dsimp only
  rw [if_neg (by simp [harr])]
  exact ⟨rfl, rfl⟩

theorem arrestState_facts (g : Game) (tid : String) (n : NPC) (br : Room)
    (hn : alGet g.npcs tid = some n)
    (hbr : alGet g.rooms g.brigrm = some br) :
    (get_npc (arrestState g tid) tid).arrested = true ∧
    (get_npc (arrestState g tid) tid).room = g.brigrm ∧
    (arrestState g tid).time = g.time ∧
    ("codes_token" ∈ (get_room (arrestState g tid) g.brigrm).items ↔
      (tid = g.killer_id ∨ "codes_token" ∈ br.items)) ∧
    (get_room (arrestState g tid) g.brigrm).items.count "codes_token" =
      (if tid = g.killer_id ∧ "codes_token" ∉ br.items then
        br.items.count "codes_token" + 1
      else br.items.count "codes_token") := by
  unfold arrestState
  dsimp only
  set g2 : Game := { g with npcs := alUpd g.npcs tid (fun m => { m with arrested := true, room := g.brigrm }) } with hg2
  set g3 : Game := sync_npcs_in_room g2 with hg3
  have hbr2 : alGet g2.rooms g.brigrm = some br := hbr
  have hkill : g3.killer_id = g.killer_id := by rw [hg3, sync_killer, hg2]
  have hbrg : g3.brigrm = g.brigrm := by rw [hg3, sync_brigrm, hg2]
  have hsync : (get_room g3 g.brigrm).items = br.items := by
    rw [hg3, get_room_sync_items]
    show ((alGet g2.rooms g.brigrm).getD defaultRoom).items = br.items
    rw [hbr2]
    rfl
  have hnpc3 : alGet g3.npcs tid = some { n with arrested := true, room := g.brigrm } := by
    rw [hg3, sync_npcs_map, hg2]
    dsimp only
    rw [alGet_alUpd_self, hn]
    rfl
  have htime : g3.time = g.time := by rw [hg3, sync_time, hg2]
  by_cases hk : tid = g3.killer_id
  · rw [if_pos hk]
    have hk2 : tid = g.killer_id := by rw [hk, hkill]
    by_cases hcode : "codes_token" ∈ (get_room g3 g3.brigrm).items
    · rw [if_pos hcode]
      have hcode2 : "codes_token" ∈ br.items := by
        rw [hbrg, hsync] at hcode
        exact hcode
      refine ⟨?_, ?_, htime, ?_, ?_⟩
      · unfold get_npc
        rw [hnpc3]
        rfl
      · unfold get_npc
        rw [hnpc3]
        rfl
      · rw [hsync]
        exact ⟨fun _ => Or.inl hk2, fun _ => hcode2⟩
      · rw [hsync, if_neg (fun hcon => hcon.2 hcode2)]
    · rw [if_neg hcode]
      have hcode2 : "codes_token" ∉ br.items := by
        rw [hbrg, hsync] at hcode
        exact hcode
      have hgetB : (get_room { g3 with rooms := alUpd g3.rooms g3.brigrm (fun r => { r with items := r.items ++ ["codes_token"] }) } g.brigrm).items = br.items ++ ["codes_token"] := by
        unfold get_room
        dsimp only
        rw [hbrg, alGet_alUpd_self, hg3, alGet_sync_rooms, hbr2]
        rfl
      refine ⟨?_, ?_, ?_, ?_, ?_⟩
      · unfold get_npc
        dsimp only
        rw [hnpc3]
        rfl
      · unfold get_npc
        dsimp only
        rw [hnpc3]
        rfl
      · exact htime
      · rw [hgetB]
        exact ⟨fun _ => Or.inl hk2, fun _ => by simp⟩
      · rw [hgetB, if_pos ⟨hk2, hcode2⟩]
        simp [List.count_append]
  · rw [if_neg hk]
    have hk2 : tid ≠ g.killer_id := fun h => hk (by rw [hkill]; exact h)
    refine ⟨?_, ?_, htime, ?_, ?_⟩
    · unfold get_npc
      rw [hnpc3]
      rfl
    · unfold get_npc
      rw [hnpc3]
      rfl
    · rw [hsync]
      exact ⟨Or.inr, fun h => h.elim (fun hh => absurd hh hk2) id⟩
    · rw [hsync, if_neg (fun hcon => hk2 hcon.1)]

theorem get_npc_time (g : Game) (t : Int) (i : String) :
    get_npc { g with time := t } i = get_npc g i := rfl

theorem get_room_time (g : Game) (t : Int) (rid : String) :
    get_room { g with time := t } rid = get_room g rid := rfl

/-! ### Save/load roundtrip -/

theorem foldl_restore_rooms (m : List (String × Room))
    (hnd : (m.map Prod.fst).Nodup) :
    (m.map (fun p => (p.1, p.2.items, p.2.npcs))).foldl
      (fun mm p => alUpd mm p.1 (fun r => { r with items := p.2.1, npcs := p.2.2 })) m
      = m := by
  apply foldl_id
  intro c hc
  rcases List.mem_map.mp hc with ⟨q, hq, rfl⟩
  apply alUpd_id
  intro p hp hpk
  have hpk2 : p.1 = q.1 := hpk
  have h1 : alGet m q.1 = some q.2 := alGet_eq_some_of_mem_nodup m q.1 q.2 hq hnd
  have h2 : alGet m q.1 = some p.2 := by
    rw [← hpk2]
    exact alGet_eq_some_of_mem_nodup m p.1 p.2 hp hnd
  have h3 : q.2 = p.2 := Option.some.inj (h1.symm.trans h2)
  rw [← h3]

theorem foldl_restore_npcs (m : List (String × NPC))
    (hnd : (m.map Prod.fst).Nodup) :
    (m.map (fun p => (p.1, p.2.room, p.2.arrested, p.2.cooperative))).foldl
      (fun mm p => alUpd mm p.1 (fun n =>
        { n with room := p.2.1, arrested := p.2.2.1, cooperative := p.2.2.2 })) m
      = m := by
  apply foldl_id
  intro c hc
  rcases List.mem_map.mp hc with ⟨q, hq, rfl⟩
  apply alUpd_id
  intro p hp hpk
  have hpk2 : p.1 = q.1 := hpk
  have h1 : alGet m q.1 = some q.2 := alGet_eq_some_of_mem_nodup m q.1 q.2 hq hnd
  have h2 : alGet m q.1 = some p.2 := by
    rw [← hpk2]
    exact alGet_eq_some_of_mem_nodup m p.1 p.2 hp hnd
  have h3 : q.2 = p.2 := Option.some.inj (h1.symm.trans h2)
  rw [← h3]

theorem load_save_id (g : Game) (h1 : (g.rooms.map Prod.fst).Nodup)
    (h2 : (g.npcs.map Prod.fst).Nodup) :
    load_from g (save_data g) = g := by
  unfold load_from save_data
  dsimp only
  rw [foldl_game_rooms, foldl_game_npcs]
  dsimp only
  rw [foldl_restore_rooms g.rooms h1, foldl_restore_npcs g.npcs h2]

theorem alGet_getD_prop {α : Type} (m : List (String × α)) (k : String) (d : α)
    (P : α → Prop) (hd : P d) (hm : ∀ p ∈ m, P p.2) : P ((alGet m k).getD d) := by
  cases h : alGet m k with
  | none => exact hd
  | some v => exact hm (k, v) (mem_of_alGet_eq_some m k v h)

theorem mem_keys_of_alGet {α : Type} (m : List (String × α)) (k : String) (v : α)
    (h : alGet m k = some v) : k ∈ m.map Prod.fst :=
  List.mem_map.mpr ⟨(k, v), mem_of_alGet_eq_some m k v h, rfl⟩

theorem alGet_eq_none_of_not_mem {α : Type} (m : List (String × α)) (k : String)
    (h : k ∉ m.map Prod.fst) : alGet m k = none := by
  cases hm : alGet m k with
  | none => rfl
  | some v => exact absurd (mem_keys_of_alGet m k v hm) h

theorem forall_npcs_alUpd (m : List (String × Room)) (k : String) (f : Room → Room)
    (hf : ∀ r, (f r).npcs = r.npcs) (Q : List String → Prop)
    (h : ∀ p ∈ m, Q p.2.npcs) : ∀ p ∈ alUpd m k f, Q p.2.npcs := by
  intro p hp
  rcases (mem_alUpd_iff m k f p).mp hp with ⟨q, hq, rfl⟩
  by_cases hqk : q.1 = k
  · simp only [if_pos hqk]
    rw [hf]
    exact h q hq
  · simp only [if_neg hqk]
    exact h q hq

theorem inv_time_upd (g : Game) (t : Int) : Inv { g with time := t } ↔ Inv g := Iff.rfl

/-- `sync_npcs_in_room` re-establishes the visibility invariants and keeps
the rest of `Inv`. -/
theorem inv_sync (g : Game) (hInv : Inv g) : Inv (sync_npcs_in_room g) := by
  obtain ⟨h1, h2, h3, h4, h5, h6, h7, h8, h9⟩ := hInv
  have hnd : (g.npcs.map Prod.fst).Nodup := by
    rw [h5]
    decide
  refine ⟨h1, h2, h3, (sync_rooms_keys g).trans h4, h5, ?_, h7, ?_, ?_⟩
  · show (get_npc g (sync_npcs_in_room g).killer_id).arrested = true ↔ _
    rw [sync_killer, sync_brigrm, get_room_sync_items]
    exact h6
  · intro nid harr p hp hmem
    unfold sync_npcs_in_room at hp
    rcases List.mem_map.mp hp with ⟨q, hq, rfl⟩
    rcases (mem_sync_list g q.1 nid).mp hmem with ⟨nn, hmemn, hroom, hfalse⟩
    have hget : alGet g.npcs nid = some nn :=
      alGet_eq_some_of_mem_nodup g.npcs nid nn hmemn hnd
    have : (get_npc (sync_npcs_in_room g) nid).arrested = false := by
      show ((alGet (sync_npcs_in_room g).npcs nid).getD defaultNPC).arrested = false
      rw [sync_npcs_map, hget]
      exact hfalse
    rw [harr] at this
    exact Bool.noConfusion this
  · intro p hp nid hmem
    unfold sync_npcs_in_room at hp
    rcases List.mem_map.mp hp with ⟨q, hq, rfl⟩
    rcases (mem_sync_list g q.1 nid).mp hmem with ⟨nn, hmemn, -, -⟩
    rw [← h5]
    exact List.mem_map.mpr ⟨(nid, nn), hmemn, rfl⟩

theorem take_g_cases (g : Game) (args : List String) :
    (take g args).g = g ∨
    ∃ iid, (current_room g).items.find?
        (fun i => itemMatches g i (joinLower args)) = some iid ∧
      (get_item g iid).portable = true ∧
      (take g args).g = { g with
        rooms := alUpd g.rooms g.player_room
          (fun rm => { rm with items := rm.items.erase iid }),
        inv := g.inv ++ [iid],
        time := max 0 (g.time - 1) } := by
  rcases args with _ | ⟨a, rest⟩
  · exact Or.inl rfl
  · cases hfind : (current_room g).items.find?
        (fun i => itemMatches g i (joinLower (a :: rest))) with
    | none => exact Or.inl (by rw [take_none_eq g a rest hfind])
    | some iid =>
      by_cases hport : (get_item g iid).portable = true
      · exact Or.inr ⟨iid, rfl, hport, (take_some_eq g a rest iid hfind hport).1⟩
      · refine Or.inl ?_
        unfold take
        dsimp only
        rw [hfind]
        dsimp only
        rw [if_pos (by simp at hport; exact hport)]

theorem drop_g_cases (g : Game) (args : List String) :
    (drop g args).g = g ∨
    ∃ iid, g.inv.find? (fun i => itemMatches g i (joinLower args)) = some iid ∧
      (drop g args).g = { g with
        rooms := alUpd g.rooms g.player_room
          (fun rm => { rm with items := rm.items ++ [iid] }),
        inv := g.inv.erase iid,
        time := max 0 (g.time - 1) } := by
  rcases args with _ | ⟨a, rest⟩
  · exact Or.inl rfl
  · cases hfind : g.inv.find? (fun i => itemMatches g i (joinLower (a :: rest))) with
    | none => exact Or.inl (by rw [drop_none_eq g a rest hfind])
    | some iid => exact Or.inr ⟨iid, rfl, (drop_some_eq g a rest iid hfind).1⟩

theorem codes_not_portable (g : Game) (h : g.items = worldItems) :
    (get_item g "codes_token").portable = false := by
  unfold get_item
  rw [h]
  decide

/-- The `Inv` conjuncts survive replacing the current room's item list, as
long as membership of the codes token in it is unchanged and the room's NPC
list is untouched. -/
theorem inv_upd_room_items (g : Game) (hInv : Inv g) (f : Room → Room)
    (hnpcs : ∀ r, (f r).npcs = r.npcs)
    (hcodes : ∀ r, "codes_token" ∈ (f r).items ↔ "codes_token" ∈ r.items)
    (inv2 : List String) (hinv2 : "codes_token" ∉ inv2) (t : Int) :
    Inv { g with rooms := alUpd g.rooms g.player_room f, inv := inv2, time := t } := by
  obtain ⟨h1, h2, h3, h4, h5, h6, h7, h8, h9⟩ := hInv
  refine ⟨h1, h2, h3, (alUpd_keys _ _ _).trans h4, h5, ?_, hinv2, ?_, ?_⟩
  · show (get_npc g g.killer_id).arrested = true ↔ _
    rw [h6]
    show _ ↔ "codes_token" ∈
      ((alGet (alUpd g.rooms g.player_room f) g.brigrm).getD defaultRoom).items
    by_cases hpr : g.brigrm = g.player_room
    · rw [hpr, alGet_alUpd_self]
      show "codes_token" ∈ ((alGet g.rooms g.player_room).getD defaultRoom).items ↔ _
      cases alGet g.rooms g.player_room with
      | none => simp
      | some r => exact (hcodes r).symm
    · rw [alGet_alUpd_ne _ _ _ _ hpr]
      exact Iff.rfl
  · intro nid harr
    have harr2 : (get_npc g nid).arrested = true := harr
    exact forall_npcs_alUpd g.rooms g.player_room f hnpcs (fun l => nid ∉ l) (h8 nid harr2)
  · exact forall_npcs_alUpd g.rooms g.player_room f hnpcs (fun l => ∀ nid ∈ l, nid ∈ npcIds) h9

theorem inv_take (g : Game) (args : List String) (hInv : Inv g) :
    Inv (take g args).g := by
  rcases take_g_cases g args with heq | ⟨iid, hfind, hport, heq⟩
  · rw [heq]
    exact hInv
  · rw [heq]
    have hne : iid ≠ "codes_token" := by
      intro hc
      rw [hc, codes_not_portable g hInv.1] at hport
      exact Bool.noConfusion hport
    refine inv_upd_room_items g hInv (fun rm => { rm with items := rm.items.erase iid })
      (fun r => rfl) ?_ (g.inv ++ [iid]) ?_ _
    · intro r
      exact List.mem_erase_of_ne (fun h => hne h.symm)
    · intro hmem
      rcases List.mem_append.mp hmem with h | h
      · exact hInv.2.2.2.2.2.2.1 h
      · exact hne (List.mem_singleton.mp h).symm

theorem inv_drop (g : Game) (args : List String) (hInv : Inv g) :
    Inv (drop g args).g := by
  rcases drop_g_cases g args with heq | ⟨iid, hfind, heq⟩
  · rw [heq]
    exact hInv
  · rw [heq]
    have hmem : iid ∈ g.inv := List.mem_of_find?_eq_some hfind
    have hne : iid ≠ "codes_token" := by
      intro hc
      exact hInv.2.2.2.2.2.2.1 (hc ▸ hmem)
    refine inv_upd_room_items g hInv (fun rm => { rm with items := rm.items ++ [iid] })
      (fun r => rfl) ?_ (g.inv.erase iid) ?_ _
    · intro r
      constructor
      · intro h
        rcases List.mem_append.mp h with h | h
        · exact h
        · exact absurd (List.mem_singleton.mp h).symm hne
      · intro h
        exact List.mem_append.mpr (Or.inl h)
    · intro h
      exact hInv.2.2.2.2.2.2.1 (List.mem_of_mem_erase h)

theorem talk_g_cases (g : Game) (args : List String) (flip : Bool) :
    (talk g args flip).g = g ∨
    (talk g args flip).g = { g with time := max 0 (g.time - 2) } ∨
    ∃ tid, (talk g args flip).g =
      { g with npcs := alUpd g.npcs tid (fun m => { m with cooperative := true }), time := max 0 (g.time - 2) } := by
  rcases args with _ | ⟨a, rest⟩
  · exact Or.inl rfl
  · unfold talk
    dsimp only
    cases hfind : (current_room g).npcs.find?
        (fun nid => npcMatches g nid (joinLower (a :: rest))) with
    | none => exact Or.inl rfl
    | some tid =>
      dsimp only
      by_cases hcond : (!tid == g.killer_id && flip) = true
      · refine Or.inr (Or.inr ⟨tid, ?_⟩)
        rw [if_pos hcond, spend_g]
      · refine Or.inr (Or.inl ?_)
        rw [if_neg hcond, spend_g]

theorem inv_talk (g : Game) (args : List String) (flip : Bool) (hInv : Inv g) :
    Inv (talk g args flip).g := by
  rcases talk_g_cases g args flip with heq | heq | ⟨tid, heq⟩
  · rw [heq]
    exact hInv
  · rw [heq]
    exact hInv
  · rw [heq]
    obtain ⟨h1, h2, h3, h4, h5, h6, h7, h8, h9⟩ := hInv
    have harr : ∀ x, (get_npc { g with npcs := alUpd g.npcs tid (fun m => { m with cooperative := true }), time := max 0 (g.time - 2) } x).arrested = (get_npc g x).arrested := by
      intro x
      show ((alGet (alUpd g.npcs tid (fun m => { m with cooperative := true })) x).getD
        defaultNPC).arrested = _
      exact arrested_alUpd_pres g.npcs tid (fun m => { m with cooperative := true })
        (fun n => rfl) x
    refine ⟨h1, h2, h3, h4, ?_, ?_, h7, ?_, h9⟩
    · dsimp only
      exact (alUpd_keys _ _ _).trans h5
    · rw [harr]
      exact h6
    · intro nid hx
      rw [harr] at hx
      exact h8 nid hx

theorem look_timeonly (g : Game) :
    (look g).g = { g with time := (look g).g.time } := by
  rw [look_g, spend_g]

theorem show_map_g (g : Game) : (show_map g).g = (spend g 0).g := rfl

theorem show_map_timeonly (g : Game) :
    (show_map g).g = { g with time := (show_map g).g.time } := by
  rw [show_map_g, spend_g]

theorem show_time_g (g : Game) : (show_time g).g = (spend g 0).g := rfl

theorem show_time_timeonly (g : Game) :
    (show_time g).g = { g with time := (show_time g).g.time } := by
  rw [show_time_g, spend_g]

theorem inv_show_g (g : Game) : (inv_show g).g = (spend g 0).g := rfl

theorem inv_show_timeonly (g : Game) :
    (inv_show g).g = { g with time := (inv_show g).g.time } := by
  rw [inv_show_g, spend_g]

theorem inspect_timeonly (g : Game) (args : List String) :
    (inspect g args).g = { g with time := (inspect g args).g.time } := by
  rcases args with _ | ⟨a, rest⟩
  · rfl
  · unfold inspect
    dsimp only
    split
    · dsimp only
      rw [spend_g]
    · split
      · dsimp only
        rw [spend_g]
      · rfl

theorem accuse_timeonly (g : Game) (args : List String) :
    (accuse g args).g = { g with time := (accuse g args).g.time } := by
  rcases args with _ | ⟨a, rest⟩
  · rfl
  · unfold accuse
    dsimp only
    split
    · rfl
    · dsimp only
      rw [spend_g]

theorem use_console_timeonly (g : Game) :
    (use_console g).g = { g with time := (use_console g).g.time } := by
  unfold use_console
  split
  · split
    · rfl
    · dsimp only
      rw [spend_g]
  · rfl

theorem move_g_cases (g : Game) (d : String) :
    (move g d).g = g ∨
    ∃ pid, (move g d).g =
      { sync_npcs_in_room { g with player_room := pid } with time := (move g d).g.time } := by
  unfold move
  dsimp only
  split
  · exact Or.inl rfl
  · split
    · exact Or.inl rfl
    · split
      · rename_i target heq r1 e hex
        refine Or.inr ⟨target.id, ?_⟩
        show (look (sync_npcs_in_room { g with player_room := target.id })).g = _
        rw [look_g, spend_g]
      · rename_i target heq r1 hex
        refine Or.inr ⟨target.id, ?_⟩
        show (spend (look (sync_npcs_in_room { g with player_room := target.id })).g 2).g = _
        rw [look_g, spend_g, spend_g]

theorem inv_move (g : Game) (d : String) (hInv : Inv g) : Inv (move g d).g := by
  rcases move_g_cases g d with heq | ⟨pid, heq⟩
  · rw [heq]
    exact hInv
  · rw [heq]
    rw [inv_time_upd]
    exact inv_sync _ hInv

theorem sync_items (g : Game) : (sync_npcs_in_room g).items = g.items := rfl

theorem sync_cmdrm (g : Game) : (sync_npcs_in_room g).cmdrm = g.cmdrm := rfl

/-- After a resync, no arrested suspect appears in any room's visible list. -/
theorem noArrVis_sync (g : Game) (hnd : (g.npcs.map Prod.fst).Nodup) :
    ∀ nid, (get_npc (sync_npcs_in_room g) nid).arrested = true →
      ∀ p ∈ (sync_npcs_in_room g).rooms, nid ∉ p.2.npcs := by
  intro nid harr p hp hmem
  unfold sync_npcs_in_room at hp
  rcases List.mem_map.mp hp with ⟨q, hq, rfl⟩
  rcases (mem_sync_list g q.1 nid).mp hmem with ⟨nn, hmemn, hroom, hfalse⟩
  have hget : alGet g.npcs nid = some nn :=
    alGet_eq_some_of_mem_nodup g.npcs nid nn hmemn hnd
  have hfa : (get_npc (sync_npcs_in_room g) nid).arrested = false := by
    show ((alGet (sync_npcs_in_room g).npcs nid).getD defaultNPC).arrested = false
    rw [sync_npcs_map, hget]
    exact hfalse
  rw [harr] at hfa
  exact Bool.noConfusion hfa

/-- After a resync, every visible NPC id is a key of the suspect table. -/
theorem roomListsOK_sync (g : Game) :
    ∀ p ∈ (sync_npcs_in_room g).rooms, ∀ nid ∈ p.2.npcs,
      nid ∈ g.npcs.map Prod.fst := by
  intro p hp nid hmem
  unfold sync_npcs_in_room at hp
  rcases List.mem_map.mp hp with ⟨q, hq, rfl⟩
  rcases (mem_sync_list g q.1 nid).mp hmem with ⟨nn, hmemn, -, -⟩
  exact List.mem_map.mpr ⟨(nid, nn), hmemn, rfl⟩

/-- The fields of the post-arrest state that are independent of the
killer/codes branching. -/
theorem arrestState_statics (g : Game) (tid : String) :
    (arrestState g tid).items = g.items ∧
    (arrestState g tid).brigrm = g.brigrm ∧
    (arrestState g tid).cmdrm = g.cmdrm ∧
    (arrestState g tid).killer_id = g.killer_id ∧
    (arrestState g tid).inv = g.inv ∧
    (arrestState g tid).npcs =
      alUpd g.npcs tid (fun m => { m with arrested := true, room := g.brigrm }) ∧
    (arrestState g tid).rooms.map Prod.fst = g.rooms.map Prod.fst := by
  unfold arrestState
  dsimp only
  set g2 : Game := { g with npcs := alUpd g.npcs tid (fun m => { m with arrested := true, room := g.brigrm }) } with hg2
  set g3 : Game := sync_npcs_in_room g2 with hg3
  split
  · split
    · refine ⟨?_, ?_, ?_, ?_, ?_, ?_, ?_⟩
      · rw [hg3, sync_items, hg2]
      · rw [hg3, sync_brigrm, hg2]
      · rw [hg3, sync_cmdrm, hg2]
      · rw [hg3, sync_killer, hg2]
      · rw [hg3, sync_inv, hg2]
      · rw [hg3, sync_npcs_map, hg2]
      · rw [hg3, sync_rooms_keys, hg2]
    · refine ⟨?_, ?_, ?_, ?_, ?_, ?_, ?_⟩
      · show g3.items = g.items
        rw [hg3, sync_items, hg2]
      · show g3.brigrm = g.brigrm
        rw [hg3, sync_brigrm, hg2]
      · show g3.cmdrm = g.cmdrm
        rw [hg3, sync_cmdrm, hg2]
      · show g3.killer_id = g.killer_id
        rw [hg3, sync_killer, hg2]
      · show g3.inv = g.inv
        rw [hg3, sync_inv, hg2]
      · show g3.npcs = alUpd g.npcs tid (fun m => { m with arrested := true, room := g.brigrm })
        rw [hg3, sync_npcs_map, hg2]
      · show (alUpd g3.rooms g3.brigrm (fun r => { r with items := r.items ++ ["codes_token"] })).map Prod.fst = g.rooms.map Prod.fst
        rw [alUpd_keys, hg3, sync_rooms_keys, hg2]
  · refine ⟨?_, ?_, ?_, ?_, ?_, ?_, ?_⟩
    · rw [hg3, sync_items, hg2]
    · rw [hg3, sync_brigrm, hg2]
    · rw [hg3, sync_cmdrm, hg2]
    · rw [hg3, sync_killer, hg2]
    · rw [hg3, sync_inv, hg2]
    · rw [hg3, sync_npcs_map, hg2]
    · rw [hg3, sync_rooms_keys, hg2]

/-- The post-arrest state keeps arrested suspects invisible and its visible
lists drawn from the suspect table: the resync inside `arrestState`
re-establishes both, and the codes-token branch only touches item lists. -/
theorem arrestState_vis (g : Game) (tid : String)
    (hnd : (g.npcs.map Prod.fst).Nodup) :
    (∀ nid, (get_npc (arrestState g tid) nid).arrested = true →
      ∀ p ∈ (arrestState g tid).rooms, nid ∉ p.2.npcs) ∧
    (∀ p ∈ (arrestState g tid).rooms, ∀ nid ∈ p.2.npcs,
      nid ∈ g.npcs.map Prod.fst) := by
  unfold arrestState
  dsimp only
  set g2 : Game := { g with npcs := alUpd g.npcs tid (fun m => { m with arrested := true, room := g.brigrm }) } with hg2
  set g3 : Game := sync_npcs_in_room g2 with hg3
  have hkeys2 : g2.npcs.map Prod.fst = g.npcs.map Prod.fst := by
    rw [hg2]
    dsimp only
    exact alUpd_keys _ _ _
  have hnd2 : (g2.npcs.map Prod.fst).Nodup := by
    rw [hkeys2]
    exact hnd
  have hNAV : ∀ nid, (get_npc g3 nid).arrested = true →
      ∀ p ∈ g3.rooms, nid ∉ p.2.npcs := by
    rw [hg3]
    exact noArrVis_sync g2 hnd2
  have hRLO : ∀ q ∈ g3.rooms, ∀ x ∈ q.2.npcs, x ∈ g.npcs.map Prod.fst := by
    intro q hq x hx
    have hq2 : q ∈ (sync_npcs_in_room g2).rooms := by
      rw [← hg3]
      exact hq
    have hx2 := roomListsOK_sync g2 q hq2 x hx
    rw [hkeys2] at hx2
    exact hx2
  split
  · split
    · exact ⟨hNAV, hRLO⟩
    · constructor
      · intro nid harr p hp
        have harr3 : (get_npc g3 nid).arrested = true := harr
        have hp2 : p ∈ alUpd g3.rooms g3.brigrm
            (fun r => { r with items := r.items ++ ["codes_token"] }) := hp
        exact forall_npcs_alUpd g3.rooms g3.brigrm
          (fun r => { r with items := r.items ++ ["codes_token"] })
          (fun r => rfl) (fun l => nid ∉ l) (hNAV nid harr3) p hp2
      · intro p hp nid hm
        have hp2 : p ∈ alUpd g3.rooms g3.brigrm
            (fun r => { r with items := r.items ++ ["codes_token"] }) := hp
        exact forall_npcs_alUpd g3.rooms g3.brigrm
          (fun r => { r with items := r.items ++ ["codes_token"] })
          (fun r => rfl) (fun l => ∀ x ∈ l, x ∈ g.npcs.map Prod.fst) hRLO p hp2 nid hm
  · exact ⟨hNAV, hRLO⟩

/-- A successful arrest preserves the game invariant. -/
theorem inv_arrestState (g : Game) (tid : String) (n : NPC) (br : Room)
    (hn : alGet g.npcs tid = some n)
    (hbr : alGet g.rooms g.brigrm = some br)
    (hInv : Inv g) : Inv (arrestState g tid) := by
  obtain ⟨f1, f2, f3, f4, f5⟩ := arrestState_facts g tid n br hn hbr
  obtain ⟨s1, s2, s3, s4, s5, s6, s7⟩ := arrestState_statics g tid
  obtain ⟨h1, h2, h3, h4, h5, h6, h7, h8, h9⟩ := hInv
  have hnd : (g.npcs.map Prod.fst).Nodup := by
    rw [h5]
    decide
  obtain ⟨hNAV, hRLO⟩ := arrestState_vis g tid hnd
  refine ⟨s1.trans h1, s2.trans h2, s3.trans h3, s7.trans h4, ?_, ?_, ?_, hNAV, ?_⟩
  · rw [s6, alUpd_keys]
    exact h5
  · rw [s4, s2]
    by_cases hk : tid = g.killer_id
    · rw [← hk]
      constructor
      · intro _
        exact f4.mpr (Or.inl hk)
      · intro _
        exact f1
    · have hne : get_npc (arrestState g tid) g.killer_id = get_npc g g.killer_id := by
        unfold get_npc
        rw [s6, alGet_alUpd_ne _ _ _ _ (fun hh => hk hh.symm)]
      rw [hne, h6]
      have hbrr : get_room g g.brigrm = br := by
        unfold get_room
        rw [hbr]
        rfl
      rw [hbrr, f4]
      constructor
      · exact Or.inr
      · intro hor
        rcases hor with hh | hh
        · exact absurd hh hk
        · exact hh
  · rw [s5]
    exact h7
  · intro p hp nid hm
    rw [← h5]
    exact hRLO p hp nid hm

theorem inv_arrest (g : Game) (args : List String) (hInv : Inv g) :
    Inv (arrest g args).g := by
  rcases args with _ | ⟨a, rest⟩
  · exact hInv
  · by_cases hc : "cuffs" ∈ g.inv
    · cases hfind : (current_room g).npcs.find?
          (fun nid => npcMatches g nid (joinLower (a :: rest))) with
      | none =>
        rw [arrest_not_here g a rest hc hfind]
        exact hInv
      | some tid =>
        by_cases harr : (get_npc g tid).arrested = true
        · rw [arrest_already g a rest tid hc hfind harr]
          exact hInv
        · have harr2 : (get_npc g tid).arrested = false := by
            cases h : (get_npc g tid).arrested
            · rfl
            · exact absurd h harr
          rw [(arrest_success_eq g a rest tid hc hfind harr2).1, spend_g]
          rw [inv_time_upd]
          -- the target is in the current room's visible list, so it is a
          -- known suspect and its entry exists
          have htid_mem : tid ∈ (current_room g).npcs :=
            List.mem_of_find?_eq_some hfind
          have htid_npc : tid ∈ npcIds := by
            cases hroom : alGet g.rooms g.player_room with
            | none =>
              unfold current_room get_room at htid_mem
              rw [hroom] at htid_mem
              cases htid_mem
            | some r =>
              apply hInv.2.2.2.2.2.2.2.2 (g.player_room, r)
                (mem_of_alGet_eq_some _ _ _ hroom)
              unfold current_room get_room at htid_mem
              rw [hroom] at htid_mem
              exact htid_mem
          have hsome : (alGet g.npcs tid).isSome := by
            apply alGet_isSome_of_mem_keys
            rw [hInv.2.2.2.2.1]
            exact htid_npc
          obtain ⟨n, hn⟩ := Option.isSome_iff_exists.mp hsome
          have hbrig_mem : g.brigrm ∈ g.rooms.map Prod.fst := by
            rw [hInv.2.2.2.1, hInv.2.1]
            decide
          obtain ⟨br, hbr⟩ := Option.isSome_iff_exists.mp
            (alGet_isSome_of_mem_keys _ _ hbrig_mem)
          exact inv_arrestState g tid n br hn hbr hInv
    · rw [arrest_no_cuffs g a rest hc]
      exact hInv

/-! ### Load re-establishes the invariant of the saved state -/

theorem load_keys (g : Game) (d : SaveData) :
    (load_from g d).rooms.map Prod.fst = g.rooms.map Prod.fst ∧
    (load_from g d).npcs.map Prod.fst = g.npcs.map Prod.fst := by
  rw [(load_from_fields g d).2.2.2.2.2.2.2.2.1, (load_from_fields g d).2.2.2.2.2.2.2.2.2]
  constructor
  · exact foldl_keys_alUpd
      (fun (r : Room) (b : List String × List String) => { r with items := b.1, npcs := b.2 })
      d.rooms g.rooms
  · exact foldl_keys_alUpd
      (fun (n : NPC) (b : String × Bool × Bool) =>
        { n with room := b.1, arrested := b.2.1, cooperative := b.2.2 })
      d.npcs g.npcs

/-- Restoring a self-saved snapshot rewrites each room's item and NPC lists
to the snapshot's, and leaves unknown keys alone. -/
theorem load_room_restore (g g0 : Game)
    (hnd0 : (g0.rooms.map Prod.fst).Nodup)
    (hkeys : g.rooms.map Prod.fst = g0.rooms.map Prod.fst)
    (rid : String) :
    (∀ r0, alGet g0.rooms rid = some r0 →
      ∃ r, alGet (load_from g (save_data g0)).rooms rid = some r ∧
        r.items = r0.items ∧ r.npcs = r0.npcs) ∧
    (alGet g0.rooms rid = none →
      alGet (load_from g (save_data g0)).rooms rid = none) := by
  have hrooms := (load_from_fields g (save_data g0)).2.2.2.2.2.2.2.2.1
  have hsdr : (save_data g0).rooms =
      g0.rooms.map (fun p => (p.1, p.2.items, p.2.npcs)) := rfl
  have hk1 : ((save_data g0).rooms.map Prod.fst) = g0.rooms.map Prod.fst := by
    rw [hsdr]
    exact keys_map_keyed g0.rooms (fun p => (p.2.items, p.2.npcs))
  have hnd1 : ((save_data g0).rooms.map Prod.fst).Nodup := by
    rw [hk1]
    exact hnd0
  have hmap : alGet (save_data g0).rooms rid =
      (alGet g0.rooms rid).map (fun r => (r.items, r.npcs)) := by
    rw [hsdr]
    exact alGet_map_keyed g0.rooms (fun _ r => (r.items, r.npcs)) rid
  constructor
  · intro r0 h0
    have hl1 : alGet (save_data g0).rooms rid = some (r0.items, r0.npcs) := by
      rw [hmap, h0]
      rfl
    have hfold : alGet ((save_data g0).rooms.foldl (fun m p =>
        alUpd m p.1 (fun r => { r with items := p.2.1, npcs := p.2.2 })) g.rooms) rid =
        (alGet g.rooms rid).map (fun r => { r with items := r0.items, npcs := r0.npcs }) :=
      alGet_foldl_alUpd_some
        (fun (r : Room) (b : List String × List String) => { r with items := b.1, npcs := b.2 })
        (save_data g0).rooms g.rooms rid hnd1 (r0.items, r0.npcs) hl1
    cases hg : alGet g.rooms rid with
    | none =>
      have hm : rid ∈ g0.rooms.map Prod.fst := mem_keys_of_alGet _ _ _ h0
      rw [← hkeys] at hm
      have hsome := alGet_isSome_of_mem_keys g.rooms rid hm
      rw [hg] at hsome
      exact Bool.noConfusion hsome
    | some rg =>
      refine ⟨{ rg with items := r0.items, npcs := r0.npcs }, ?_, rfl, rfl⟩
      rw [hrooms, hfold, hg]
      rfl
  · intro h0
    have hl1 : alGet (save_data g0).rooms rid = none := by
      rw [hmap, h0]
      rfl
    have hfold : alGet ((save_data g0).rooms.foldl (fun m p =>
        alUpd m p.1 (fun r => { r with items := p.2.1, npcs := p.2.2 })) g.rooms) rid =
        alGet g.rooms rid :=
      alGet_foldl_alUpd_none
        (fun (r : Room) (b : List String × List String) => { r with items := b.1, npcs := b.2 })
        (save_data g0).rooms g.rooms rid hnd1 hl1
    rw [hrooms, hfold]
    apply alGet_eq_none_of_not_mem
    rw [hkeys]
    intro hm
    have hsome := alGet_isSome_of_mem_keys g0.rooms rid hm
    rw [h0] at hsome
    exact Bool.noConfusion hsome

/-- After restoring a self-saved snapshot, every suspect's arrested flag is
the snapshot's. -/
theorem load_npc_arrested (g g0 : Game)
    (hnd0 : (g0.npcs.map Prod.fst).Nodup)
    (hkeys : g.npcs.map Prod.fst = g0.npcs.map Prod.fst)
    (nid : String) :
    (get_npc (load_from g (save_data g0)) nid).arrested =
      (get_npc g0 nid).arrested := by
  have hnpcs := (load_from_fields g (save_data g0)).2.2.2.2.2.2.2.2.2
  have hsdn : (save_data g0).npcs =
      g0.npcs.map (fun p => (p.1, p.2.room, p.2.arrested, p.2.cooperative)) := rfl
  have hk1 : ((save_data g0).npcs.map Prod.fst) = g0.npcs.map Prod.fst := by
    rw [hsdn]
    exact keys_map_keyed g0.npcs (fun p => (p.2.room, p.2.arrested, p.2.cooperative))
  have hnd1 : ((save_data g0).npcs.map Prod.fst).Nodup := by
    rw [hk1]
    exact hnd0
  have hmap : alGet (save_data g0).npcs nid =
      (alGet g0.npcs nid).map (fun n => (n.room, n.arrested, n.cooperative)) := by
    rw [hsdn]
    exact alGet_map_keyed g0.npcs (fun _ n => (n.room, n.arrested, n.cooperative)) nid
  unfold get_npc
  rw [hnpcs]
  cases h0 : alGet g0.npcs nid with
  | none =>
    have hl1 : alGet (save_data g0).npcs nid = none := by
      rw [hmap, h0]
      rfl
    have hfold : alGet ((save_data g0).npcs.foldl (fun m p =>
        alUpd m p.1 (fun n =>
          { n with room := p.2.1, arrested := p.2.2.1, cooperative := p.2.2.2 })) g.npcs) nid =
        alGet g.npcs nid :=
      alGet_foldl_alUpd_none
        (fun (n : NPC) (b : String × Bool × Bool) =>
          { n with room := b.1, arrested := b.2.1, cooperative := b.2.2 })
        (save_data g0).npcs g.npcs nid hnd1 hl1
    have hgn : alGet g.npcs nid = none := by
      apply alGet_eq_none_of_not_mem
      rw [hkeys]
      intro hm
      have hsome := alGet_isSome_of_mem_keys g0.npcs nid hm
      rw [h0] at hsome
      exact Bool.noConfusion hsome
    rw [hfold, hgn]
  | some n0 =>
    have hl1 : alGet (save_data g0).npcs nid = some (n0.room, n0.arrested, n0.cooperative) := by
      rw [hmap, h0]
      rfl
    have hfold : alGet ((save_data g0).npcs.foldl (fun m p =>
        alUpd m p.1 (fun n =>
          { n with room := p.2.1, arrested := p.2.2.1, cooperative := p.2.2.2 })) g.npcs) nid =
        (alGet g.npcs nid).map (fun n =>
          { n with room := n0.room, arrested := n0.arrested, cooperative := n0.cooperative }) :=
      alGet_foldl_alUpd_some
        (fun (n : NPC) (b : String × Bool × Bool) =>
          { n with room := b.1, arrested := b.2.1, cooperative := b.2.2 })
        (save_data g0).npcs g.npcs nid hnd1 (n0.room, n0.arrested, n0.cooperative) hl1
    rw [hfold]
    cases hg : alGet g.npcs nid with
    | none =>
      have hm : nid ∈ g0.npcs.map Prod.fst := mem_keys_of_alGet _ _ _ h0
      rw [← hkeys] at hm
      have hsome := alGet_isSome_of_mem_keys g.npcs nid hm
      rw [hg] at hsome
      exact Bool.noConfusion hsome
    | some ng => rfl

/-- Loading a snapshot that the program itself saved of an `Inv` state takes
any `Inv` state back to an `Inv` state. -/
theorem inv_load (g g0 : Game) (hg : Inv g) (h0 : Inv g0) :
    Inv (load_from g (save_data g0)) := by
  obtain ⟨a1, a2, a3, a4, a5, a6, a7, a8, a9⟩ := hg
  obtain ⟨b1, b2, b3, b4, b5, b6, b7, b8, b9⟩ := h0
  have hndr : (g0.rooms.map Prod.fst).Nodup := by
    rw [b4]
    decide
  have hndn : (g0.npcs.map Prod.fst).Nodup := by
    rw [b5]
    decide
  have hkr : g.rooms.map Prod.fst = g0.rooms.map Prod.fst := a4.trans b4.symm
  have hkn : g.npcs.map Prod.fst = g0.npcs.map Prod.fst := a5.trans b5.symm
  have hF := load_from_fields g (save_data g0)
  have hkiller : (load_from g (save_data g0)).killer_id = g0.killer_id := hF.2.2.2.1
  have hinv2 : (load_from g (save_data g0)).inv = g0.inv := hF.2.2.1
  have hbrig : (load_from g (save_data g0)).brigrm = "brig" :=
    hF.2.2.2.2.2.2.1.trans a2
  have hLK := load_keys g (save_data g0)
  refine ⟨hF.2.2.2.2.2.1.trans a1, hbrig, hF.2.2.2.2.2.2.2.1.trans a3,
    hLK.1.trans a4, hLK.2.trans a5, ?_, ?_, ?_, ?_⟩
  · rw [hkiller, hbrig, load_npc_arrested g g0 hndn hkn g0.killer_id]
    have hbk : "brig" ∈ g0.rooms.map Prod.fst := by
      rw [b4]
      decide
    obtain ⟨br0, hbr0⟩ := Option.isSome_iff_exists.mp
      (alGet_isSome_of_mem_keys g0.rooms "brig" hbk)
    obtain ⟨br, hbr, hbi, -⟩ := (load_room_restore g g0 hndr hkr "brig").1 br0 hbr0
    have hR1 : get_room (load_from g (save_data g0)) "brig" = br := by
      unfold get_room
      rw [hbr]
      rfl
    have hR0 : get_room g0 g0.brigrm = br0 := by
      unfold get_room
      rw [b2, hbr0]
      rfl
    rw [hR1, hbi, b6, hR0]
  · rw [hinv2]
    exact b7
  · intro nid harr p hp
    rw [load_npc_arrested g g0 hndn hkn nid] at harr
    have hndl : ((load_from g (save_data g0)).rooms.map Prod.fst).Nodup := by
      rw [hLK.1, a4]
      decide
    have hpget : alGet (load_from g (save_data g0)).rooms p.1 = some p.2 :=
      alGet_eq_some_of_mem_nodup _ p.1 p.2 hp hndl
    have hkey : p.1 ∈ g0.rooms.map Prod.fst := by
      have hm := mem_keys_of_alGet _ _ _ hpget
      rw [hLK.1, hkr] at hm
      exact hm
    obtain ⟨r0, hr0⟩ := Option.isSome_iff_exists.mp
      (alGet_isSome_of_mem_keys g0.rooms p.1 hkey)
    obtain ⟨r, hr, -, hrn⟩ := (load_room_restore g g0 hndr hkr p.1).1 r0 hr0
    have hpr : p.2 = r := Option.some.inj (hpget.symm.trans hr)
    rw [hpr, hrn]
    exact b8 nid harr (p.1, r0) (mem_of_alGet_eq_some _ _ _ hr0)
  · intro p hp nid hm
    have hndl : ((load_from g (save_data g0)).rooms.map Prod.fst).Nodup := by
      rw [hLK.1, a4]
      decide
    have hpget : alGet (load_from g (save_data g0)).rooms p.1 = some p.2 :=
      alGet_eq_some_of_mem_nodup _ p.1 p.2 hp hndl
    have hkey : p.1 ∈ g0.rooms.map Prod.fst := by
      have hm2 := mem_keys_of_alGet _ _ _ hpget
      rw [hLK.1, hkr] at hm2
      exact hm2
    obtain ⟨r0, hr0⟩ := Option.isSome_iff_exists.mp
      (alGet_isSome_of_mem_keys g0.rooms p.1 hkey)
    obtain ⟨r, hr, -, hrn⟩ := (load_room_restore g g0 hndr hkr p.1).1 r0 hr0
    have hpr : p.2 = r := Option.some.inj (hpget.symm.trans hr)
    rw [hpr, hrn] at hm
    exact b9 (p.1, r0) (mem_of_alGet_eq_some _ _ _ hr0) nid hm

/-! ### The process invariant is preserved by every loop iteration -/

theorem sysInv_lift (s : Sys) (hS : SysInv s) (g2 : Game) (h2 : Inv g2) :
    SysInv ⟨g2, s.file⟩ :=
  ⟨h2, hS.2⟩

theorem sysInv_step (s : Sys) (c : Cmd) (hS : SysInv s) : SysInv (stepSys s c).s := by
  rcases stepSys_s_eq s c with ⟨hs, -⟩
  rw [hs]
  cases c with
  | help => exact hS
  | look => exact sysInv_lift s hS _ (by rw [look_timeonly]; exact hS.1)
  | showMap => exact sysInv_lift s hS _ (by rw [show_map_timeonly]; exact hS.1)
  | showTime => exact sysInv_lift s hS _ (by rw [show_time_timeonly]; exact hS.1)
  | invShow => exact sysInv_lift s hS _ (by rw [inv_show_timeonly]; exact hS.1)
  | go args =>
    cases args with
    | nil => exact hS
    | cons a rest => exact sysInv_lift s hS _ (inv_move s.g a hS.1)
  | take args => exact sysInv_lift s hS _ (inv_take s.g args hS.1)
  | drop args => exact sysInv_lift s hS _ (inv_drop s.g args hS.1)
  | inspect args => exact sysInv_lift s hS _ (by rw [inspect_timeonly]; exact hS.1)
  | talk args flip => exact sysInv_lift s hS _ (inv_talk s.g args flip hS.1)
  | accuse args => exact sysInv_lift s hS _ (by rw [accuse_timeonly]; exact hS.1)
  | arrest args => exact sysInv_lift s hS _ (inv_arrest s.g args hS.1)
  | useConsole => exact sysInv_lift s hS _ (by rw [use_console_timeonly]; exact hS.1)
  | save =>
    refine ⟨hS.1, ?_⟩
    intro d hd
    exact ⟨s.g, hS.1, (Option.some.inj hd).symm⟩
  | load =>
    cases hfile : s.file with
    | none =>
      dsimp only [stepCore]
      rw [hfile]
      exact hS
    | some d =>
      dsimp only [stepCore]
      rw [hfile]
      dsimp only
      obtain ⟨g0, hg0, rfl⟩ := hS.2 d hfile
      refine ⟨inv_load s.g g0 hS.1 hg0, ?_⟩
      intro d2 hd2
      exact ⟨g0, hg0, (Option.some.inj hd2).symm⟩
  | quit => exact hS
  | unknown => exact hS

theorem sysInv_runCmds (cmds : List Cmd) :
    ∀ s : Sys, SysInv s → SysInv (runCmds s cmds).s := by
  induction cmds with
  | nil => exact fun s h => h
  | cons c cs ih =>
    intro s h
    simp only [runCmds]
    cases hex : (stepSys s c).ex with
    | some e => exact sysInv_step s c h
    | none => exact ih (stepSys s c).s (sysInv_step s c h)

/-- No step other than `load` ever clears an arrested flag. -/
theorem arrested_step (s : Sys) (c : Cmd) (nid : String) (hl : c.isLoad = false)
    (h : (get_npc s.g nid).arrested = true) :
    (get_npc (stepSys s c).s.g nid).arrested = true := by
  by_cases hsave : c = Cmd.save
  · subst hsave
    rcases stepSys_s_eq s Cmd.save with ⟨hs, -⟩
    rw [hs]
    exact h
  · have hload : c ≠ Cmd.load := by
      intro hc
      subst hc
      simp [Cmd.isLoad] at hl
    rcases (shape_stepSys s c hsave hload).1 with heq | ⟨g2, m, -, hmut, heq, -⟩
    · rw [heq]
      exact h
    · rw [heq, spend_g, get_npc_time]
      exact hmut.2.2.2.2.2.2.2.2 nid h

/-- In an `Inv` state, an arrested suspect is in no room's visible list, so no
room lookup (talk / inspect / arrest all use one) can resolve a name to it. -/
theorem inv_arrested_invisible (g : Game) (nid : String) (hInv : Inv g)
    (harr : (get_npc g nid).arrested = true) :
    (∀ p ∈ g.rooms, nid ∉ p.2.npcs) ∧
    ∀ args : List String, (current_room g).npcs.find?
        (fun x => npcMatches g x (joinLower args)) ≠ some nid := by
  have hNAV := hInv.2.2.2.2.2.2.2.1 nid harr
  refine ⟨hNAV, ?_⟩
  intro args hfind
  have hmem := List.mem_of_find?_eq_some hfind
  cases hroom : alGet g.rooms g.player_room with
  | none =>
    unfold current_room get_room at hmem
    rw [hroom] at hmem
    exact (List.not_mem_nil nid) hmem
  | some r =>
    unfold current_room get_room at hmem
    rw [hroom] at hmem
    exact hNAV (g.player_room, r) (mem_of_alGet_eq_some _ _ _ hroom) hmem

/-! ### `use_console` helpers -/

theorem max0_eq_zero_iff (a : Int) : max 0 a = 0 ↔ a ≤ 0 :=
  max_eq_left_iff

theorem spend_ex_ne_win (g : Game) (m : Int) : (spend g m).ex ≠ some Exit.win := by
  unfold spend
  dsimp only
  split
  · intro h
    exact Exit.noConfusion (Option.some.inj h)
  · intro h
    exact Option.noConfusion h

/-- The initial process state satisfies the program invariant: the authored
tables are in place, nobody is arrested, the codes token is hidden, every
room's visible-NPC list starts empty, and there is no save file. -/
theorem sysInv_init0 : SysInv init0 := by
  refine ⟨⟨?_, ?_, ?_, ?_, ?_, ?_, ?_, ?_, ?_⟩, ?_⟩
  · decide
  · decide
  · decide
  · decide
  · decide
  · decide
  · decide
  · intro nid harr p hp hmem
    have hemp : ∀ q ∈ init0.g.rooms, q.2.npcs = [] := by decide
    rw [hemp p hp] at hmem
    exact (List.not_mem_nil nid) hmem
  · decide
  · intro d hd
    exact Option.noConfusion hd

/-! ### Claim theorems -/

/-- C3: the timer is always non-negative, no operation other than `load` ever
increases it, and `spend` ends the game in a loss exactly when the clamped
timer reaches zero.  States and save files are constrained to non-negative
timers, which holds of the initial state (60) and is preserved by every step
by the first conjunct itself. -/
theorem C3_timer :
    (∀ (s : Sys) (c : Cmd), 0 ≤ s.g.time → (∀ d, s.file = some d → 0 ≤ d.time) →
      (0 ≤ (stepSys s c).s.g.time ∧
        (c.isLoad = false → (stepSys s c).s.g.time ≤ s.g.time)) ∧
      (∀ d, (stepSys s c).s.file = some d → 0 ≤ d.time)) ∧
    ∀ (g : Game) (m : Int), (spend g m).ex = some Exit.lose ↔ max 0 (g.time - m) = 0 := by
  constructor
  · intro s c hg hf
    by_cases hsave : c = Cmd.save
    · subst hsave
      rcases stepSys_s_eq s Cmd.save with ⟨hs, -⟩
      rw [hs]
      refine ⟨⟨hg, fun _ => le_refl _⟩, ?_⟩
      intro d hd
      dsimp only [stepCore] at hd
      cases hd
      exact hg
    by_cases hload : c = Cmd.load
    · subst hload
      rcases stepSys_s_eq s Cmd.load with ⟨hs, -⟩
      rw [hs]
      cases hfile : s.file with
      | none =>
        dsimp only [stepCore]
        rw [hfile]
        exact ⟨⟨hg, fun hl => by simp [Cmd.isLoad] at hl⟩, fun d hd => hf d (hfile ▸ hd)⟩
      | some d0 =>
        dsimp only [stepCore]
        rw [hfile]
        dsimp only
        refine ⟨⟨?_, fun hl => by simp [Cmd.isLoad] at hl⟩, ?_⟩
        · rw [load_from_time]
          exact hf d0 hfile
        · intro d hd
          exact hf d (hfile ▸ hd)
    · have h := shape_stepSys s c hsave hload
      have ht := shape_time s.g _ _ h.1 hg
      refine ⟨⟨ht.2, fun _ => ht.1⟩, ?_⟩
      intro d hd
      rw [h.2] at hd
      exact hf d hd
  · intro g m
    exact spend_ex_iff g m

/-- Witness for C3 at a concrete input: one `take` step from the initial
state keeps the timer non-negative and non-increasing. -/
theorem C3_timer_witness :
    (0 ≤ (stepSys init0 (Cmd.take ["cuffs"])).s.g.time ∧
      (stepSys init0 (Cmd.take ["cuffs"])).s.g.time ≤ init0.g.time) ∧
    ((spend init0.g 60).ex = some Exit.lose ↔ max 0 (init0.g.time - 60) = 0) := by
  have h := C3_timer
  have h1 := (h.1 init0 (Cmd.take ["cuffs"]) (by decide)
    (fun d hd => Option.noConfusion hd)).1
  exact ⟨⟨h1.1, h1.2 (by decide)⟩, h.2 init0.g 60⟩

/-- C7: the culprit is the single suspect drawn by the generator at
initialization (hence exactly one NPC id, from the suspect table), and no
operation except `load` ever changes `killer_id`. -/
theorem C7_culprit :
    (∀ (killerIdx : Nat) (sel : String → Nat × Nat × Nat) (scatterIdx : String → Nat),
      killerIdx < npcIds.length →
      (initGame killerIdx sel scatterIdx).killer_id = npcIds.getD killerIdx "" ∧
      (initGame killerIdx sel scatterIdx).killer_id ∈ npcIds) ∧
    ∀ (s : Sys) (c : Cmd), c.isLoad = false →
      (stepSys s c).s.g.killer_id = s.g.killer_id := by
  constructor
  · intro k sel sc hk
    have h1 := (initGame_fields k sel sc).1
    refine ⟨h1, ?_⟩
    rw [h1]
    have h6 : k < 6 := by simpa using hk
    interval_cases k <;> decide
  · intro s c hl
    by_cases hsave : c = Cmd.save
    · subst hsave
      rcases stepSys_s_eq s Cmd.save with ⟨hs, -⟩
      rw [hs]
      rfl
    · have h := shape_stepSys s c hsave
        (fun hc => by subst hc; simp [Cmd.isLoad] at hl)
      exact shape_killer s.g _ _ h.1

/-- Witness for C7 at a concrete input: drawing index 2 designates `chen`,
and an `arrest` step preserves the culprit. -/
theorem C7_culprit_witness :
    (initGame 2 (fun _ => (0, 1, 2)) (fun _ => 0)).killer_id ∈ npcIds ∧
    (stepSys init0 (Cmd.arrest ["das"])).s.g.killer_id = init0.g.killer_id := by
  have h := C7_culprit
  exact ⟨(h.1 2 (fun _ => (0, 1, 2)) (fun _ => 0) (by decide)).2,
    h.2 init0 (Cmd.arrest ["das"]) (by decide)⟩

/-- C10: the initial timer is 60, and whenever the command loop returns to
the prompt (the step does not terminate the process) the timer is at least 1,
provided the save file only ever holds records with a timer of at least 1 —
which the second conjunct shows is maintained by the program's own saves. -/
theorem C10_prompt_time :
    (∀ (killerIdx : Nat) (sel : String → Nat × Nat × Nat) (scatterIdx : String → Nat),
      (initGame killerIdx sel scatterIdx).time = 60) ∧
    ∀ (s : Sys) (c : Cmd), 1 ≤ s.g.time → (∀ d, s.file = some d → 1 ≤ d.time) →
      ((stepSys s c).ex = none → 1 ≤ (stepSys s c).s.g.time) ∧
      ∀ d, (stepSys s c).s.file = some d → 1 ≤ d.time := by
  constructor
  · intro k sel sc
    exact (initGame_fields k sel sc).2.2.1
  · intro s c hg hf
    by_cases hsave : c = Cmd.save
    · subst hsave
      rcases stepSys_s_eq s Cmd.save with ⟨hs, -⟩
      rw [hs]
      refine ⟨fun _ => hg, ?_⟩
      intro d hd
      dsimp only [stepCore] at hd
      cases hd
      exact hg
    by_cases hload : c = Cmd.load
    · subst hload
      rcases stepSys_s_eq s Cmd.load with ⟨hs, -⟩
      rw [hs]
      cases hfile : s.file with
      | none =>
        dsimp only [stepCore]
        rw [hfile]
        exact ⟨fun _ => hg, fun d hd => hf d (hfile ▸ hd)⟩
      | some d0 =>
        dsimp only [stepCore]
        rw [hfile]
        dsimp only
        refine ⟨fun _ => ?_, fun d hd => hf d (hfile ▸ hd)⟩
        rw [load_from_time]
        exact hf d0 hfile
    · have h := shape_stepSys s c hsave hload
      refine ⟨fun hex => shape_pos s.g _ _ h.1 hg hex, ?_⟩
      intro d hd
      rw [h.2] at hd
      exact hf d hd

/-- Witness for C10 at a concrete input: a move from the initial state keeps
the prompt-time positive. -/
theorem C10_prompt_time_witness :
    (initGame 0 (fun _ => (0, 1, 2)) (fun _ => 0)).time = 60 ∧
    ((stepSys init0 (Cmd.go ["n"])).ex = none →
      1 ≤ (stepSys init0 (Cmd.go ["n"])).s.g.time) := by
  have h := C10_prompt_time
  exact ⟨h.1 0 (fun _ => (0, 1, 2)) (fun _ => 0),
    (h.2 init0 (Cmd.go ["n"]) (by decide) (fun d hd => Option.noConfusion hd)).1⟩

/-- C6: immediately after case setup, every suspect's assigned evidence set
has exactly 3 pairwise-distinct item ids, each drawn from that suspect's
fixed 3-item candidate pool (under the guarantee `random.sample` gives about
its three chosen positions). -/
theorem C6_evidence_sets :
    ∀ (killerIdx : Nat) (sel : String → Nat × Nat × Nat) (scatterIdx : String → Nat),
      (∀ sus ∈ npcIds, SelOK ((alGet evidence_pool sus).getD []) (sel sus)) →
      ∀ sus ∈ npcIds,
        ∃ ev, alGet (initGame killerIdx sel scatterIdx).killer_evidence sus = some ev ∧
          ev.length = 3 ∧ ev.Nodup ∧ ∀ i ∈ ev, i ∈ (alGet evidence_pool sus).getD [] := by
  intro k sel sc hok sus hsus
  rw [(initGame_fields k sel sc).2.1]
  refine ⟨sample3 ((alGet evidence_pool sus).getD []) (sel sus), ?_, ?_⟩
  · exact alGet_map_self npcIds
      (fun sus => sample3 ((alGet evidence_pool sus).getD []) (sel sus)) sus hsus
  · have hnd : ((alGet evidence_pool sus).getD []).Nodup := by
      fin_cases hsus <;> decide
    exact sample3_spec _ _ hnd (hok sus hsus)

/-- Witness for C6 at a concrete input: with every sample drawing positions
(0,1,2), suspect `das` gets its full pool as evidence. -/
theorem C6_evidence_sets_witness :
    ∃ ev, alGet (initGame 0 (fun _ => (0, 1, 2)) (fun _ => 0)).killer_evidence "das" =
        some ev ∧
      ev.length = 3 ∧ ev.Nodup ∧ ∀ i ∈ ev, i ∈ (alGet evidence_pool "das").getD [] :=
  C6_evidence_sets 0 (fun _ => (0, 1, 2)) (fun _ => 0)
    (by intro sus hsus; fin_cases hsus <;> exact ⟨by decide, by decide, by decide,
      by decide, by decide, by decide⟩) "das" (by decide)

/-- C5: a successful `take` removes exactly one occurrence of the resolved id
from the room's item list and appends exactly one occurrence to the
inventory; a successful `drop` does the exact inverse; and take-then-drop of
the same input leaves the inventory equal to the original (under the
world-data facts that the id is held nowhere else in the inventory and no
other inventory item matches the input name). -/
theorem C5_take_drop_inverse :
    (∀ (g : Game) (a : String) (rest : List String) (iid : String) (r : Room),
      alGet g.rooms g.player_room = some r →
      r.items.find? (fun i => itemMatches g i (joinLower (a :: rest))) = some iid →
      (get_item g iid).portable = true →
      (take g (a :: rest)).g.inv = g.inv ++ [iid] ∧
      (take g (a :: rest)).g.inv.count iid = g.inv.count iid + 1 ∧
      (∀ j, j ≠ iid → (take g (a :: rest)).g.inv.count j = g.inv.count j) ∧
      alGet (take g (a :: rest)).g.rooms g.player_room =
        some { r with items := r.items.erase iid } ∧
      (r.items.erase iid).count iid + 1 = r.items.count iid ∧
      (∀ j, j ≠ iid → (r.items.erase iid).count j = r.items.count j)) ∧
    (∀ (g : Game) (a : String) (rest : List String) (iid : String) (r : Room),
      alGet g.rooms g.player_room = some r →
      g.inv.find? (fun i => itemMatches g i (joinLower (a :: rest))) = some iid →
      (drop g (a :: rest)).g.inv = g.inv.erase iid ∧
      (g.inv.erase iid).count iid + 1 = g.inv.count iid ∧
      (∀ j, j ≠ iid → (g.inv.erase iid).count j = g.inv.count j) ∧
      alGet (drop g (a :: rest)).g.rooms g.player_room =
        some { r with items := r.items ++ [iid] }) ∧
    ∀ (g : Game) (a : String) (rest : List String) (iid : String),
      (current_room g).items.find?
        (fun i => itemMatches g i (joinLower (a :: rest))) = some iid →
      (get_item g iid).portable = true →
      (∀ j ∈ g.inv, itemMatches g j (joinLower (a :: rest)) = false) →
      (drop (take g (a :: rest)).g (a :: rest)).g.inv = g.inv := by
  refine ⟨?_, ?_, ?_⟩
  · intro g a rest iid r hroom hfind hport
    have hcr : current_room g = r := by
      unfold current_room get_room
      rw [hroom]
      rfl
    have hfind0 : (current_room g).items.find?
        (fun i => itemMatches g i (joinLower (a :: rest))) = some iid := by
      rw [hcr]
      exact hfind
    have ht := (take_some_eq g a rest iid hfind0 hport).1
    have hmem : iid ∈ r.items := List.mem_of_find?_eq_some hfind
    have hcnt : 0 < r.items.count iid := List.count_pos_iff.mpr hmem
    refine ⟨?_, ?_, ?_, ?_, ?_, ?_⟩
    · rw [ht]
    · rw [ht]
      simp [List.count_append]
    · intro j hj
      rw [ht]
      simp [List.count_append, List.count_cons, hj, Ne.symm hj]
    · rw [ht]
      dsimp only
      rw [alGet_alUpd_self, hroom]
      rfl
    · have := List.count_erase_self iid r.items
      omega
    · intro j hj
      exact List.count_erase_of_ne hj r.items
  · intro g a rest iid r hroom hfind
    have hd := (drop_some_eq g a rest iid hfind).1
    have hmem : iid ∈ g.inv := List.mem_of_find?_eq_some hfind
    have hcnt : 0 < g.inv.count iid := List.count_pos_iff.mpr hmem
    refine ⟨?_, ?_, ?_, ?_⟩
    · rw [hd]
    · have := List.count_erase_self iid g.inv
      omega
    · intro j hj
      exact List.count_erase_of_ne hj g.inv
    · rw [hd]
      dsimp only
      rw [alGet_alUpd_self, hroom]
      rfl
  · intro g a rest iid hfind hport hnoinv
    have ht := (take_some_eq g a rest iid hfind hport).1
    have hm0 := List.find?_some hfind
    have hm : itemMatches g iid (joinLower (a :: rest)) = true := hm0
    have hnotin : iid ∉ g.inv := fun h => by
      rw [hnoinv iid h] at hm
      exact Bool.noConfusion hm
    have hitems : (take g (a :: rest)).g.items = g.items := by rw [ht]
    have hfind1 : (take g (a :: rest)).g.inv.find?
        (fun i => itemMatches (take g (a :: rest)).g i (joinLower (a :: rest))) =
          some iid := by
      have hinv : (take g (a :: rest)).g.inv = g.inv ++ [iid] := by rw [ht]
      rw [hinv]
      have hc : ∀ i name, itemMatches (take g (a :: rest)).g i name = itemMatches g i name :=
        itemMatches_congr g _ hitems
      have hstep1 : (g.inv ++ [iid]).find?
          (fun i => itemMatches (take g (a :: rest)).g i (joinLower (a :: rest))) =
          (g.inv ++ [iid]).find? (fun i => itemMatches g i (joinLower (a :: rest))) := by
        simp only [hc]
      rw [hstep1, find?_append_of_none _ _ _ hnoinv]
      simp [hm]
    have hd := (drop_some_eq _ a rest iid hfind1).1
    rw [hd]
    show ((take g (a :: rest)).g.inv).erase iid = g.inv
    have hinv : (take g (a :: rest)).g.inv = g.inv ++ [iid] := by rw [ht]
    rw [hinv, List.erase_append_right _ hnotin, List.erase_cons_head, List.append_nil]

/-- Witness for C5 at a concrete input: taking and dropping the cuffs in the
Grand Atrium restores the starting (empty) inventory. -/
theorem C5_take_drop_inverse_witness :
    (drop (take init0.g ["cuffs"]).g ["cuffs"]).g.inv = init0.g.inv :=
  C5_take_drop_inverse.2.2 init0.g "cuffs" [] "cuffs" (by decide) (by decide)
    (by intro j hj; cases hj)

/-- C8 (amended): `take` resolves the input over the current room's item
contents only, `drop` over the inventory only, and `inspect` over the
inventory followed by the current room's item contents; in every case the
match test compares the lowered space-joined input for equality against the
item's lowered display name or its identifier, and the first element of the
scanned collection that matches is the one resolved. -/
theorem C8_name_resolution :
    (∀ (g : Game) (i name : String),
      itemMatches g i name = true ↔ (lower (get_item g i).name = name ∨ i = name)) ∧
    (∀ (g : Game) (a : String) (rest : List String),
      ((∀ i ∈ (current_room g).items,
          itemMatches g i (joinLower (a :: rest)) = false) →
        take g (a :: rest) = ⟨g, ["Not here."], none⟩) ∧
      ∀ iid, (current_room g).items.find?
          (fun i => itemMatches g i (joinLower (a :: rest))) = some iid →
        iid ∈ (current_room g).items ∧
        itemMatches g iid (joinLower (a :: rest)) = true ∧
        ∃ l1 l2, (current_room g).items = l1 ++ iid :: l2 ∧
          ∀ x ∈ l1, itemMatches g x (joinLower (a :: rest)) = false) ∧
    (∀ (g : Game) (a : String) (rest : List String),
      ((∀ i ∈ g.inv, itemMatches g i (joinLower (a :: rest)) = false) →
        drop g (a :: rest) = ⟨g, ["You don’t have that."], none⟩) ∧
      ∀ iid, g.inv.find? (fun i => itemMatches g i (joinLower (a :: rest))) = some iid →
        iid ∈ g.inv ∧
        itemMatches g iid (joinLower (a :: rest)) = true ∧
        ∃ l1 l2, g.inv = l1 ++ iid :: l2 ∧
          ∀ x ∈ l1, itemMatches g x (joinLower (a :: rest)) = false) ∧
    ∀ (g : Game) (a : String) (rest : List String),
      ((∀ i ∈ g.inv ++ (current_room g).items,
          itemMatches g i (joinLower (a :: rest)) = false) →
        (∀ nid ∈ (current_room g).npcs,
          npcMatches g nid (joinLower (a :: rest)) = false) →
        inspect g (a :: rest) = ⟨g, ["You find nothing notable."], none⟩) ∧
      ∀ i, (g.inv ++ (current_room g).items).find?
          (fun j => itemMatches g j (joinLower (a :: rest))) = some i →
        i ∈ g.inv ++ (current_room g).items ∧
        itemMatches g i (joinLower (a :: rest)) = true ∧
        ∃ l1 l2, g.inv ++ (current_room g).items = l1 ++ i :: l2 ∧
          ∀ x ∈ l1, itemMatches g x (joinLower (a :: rest)) = false := by
  refine ⟨?_, ?_, ?_, ?_⟩
  · intro g i name
    unfold itemMatches
    rw [Bool.or_eq_true, beq_iff_eq, beq_iff_eq]
  · intro g a rest
    constructor
    · intro hall
      exact take_none_eq g a rest (List.find?_eq_none.mpr (by simpa using hall))
    · intro iid hfind
      rcases find?_eq_some_split _ _ _ hfind with ⟨hp, hmem, l1, l2, heq, hl1⟩
      exact ⟨hmem, hp, l1, l2, heq, hl1⟩
  · intro g a rest
    constructor
    · intro hall
      exact drop_none_eq g a rest (List.find?_eq_none.mpr (by simpa using hall))
    · intro iid hfind
      rcases find?_eq_some_split _ _ _ hfind with ⟨hp, hmem, l1, l2, heq, hl1⟩
      exact ⟨hmem, hp, l1, l2, heq, hl1⟩
  · intro g a rest
    constructor
    · intro hall hnpc
      refine inspect_nothing_eq g a rest (List.find?_eq_none.mpr (by simpa using hall))
        (List.find?_eq_none.mpr (by simpa using hnpc))
    · intro i hfind
      rcases find?_eq_some_split _ _ _ hfind with ⟨hp, hmem, l1, l2, heq, hl1⟩
      exact ⟨hmem, hp, l1, l2, heq, hl1⟩

/-- Witness for C8 at a concrete input: in the Grand Atrium the input
`Restraint CUFFS` resolves for `take` to the first matching room item. -/
theorem C8_name_resolution_witness :
    itemMatches init0.g "cuffs" (joinLower ["Restraint", "CUFFS"]) = true ∧
    "cuffs" ∈ (current_room init0.g).items := by
  have h := C8_name_resolution
  have h2 := (h.2.1 init0.g "Restraint" ["CUFFS"]).2 "cuffs" (by decide)
  exact ⟨h2.2.1, h2.1⟩

/-- Counterexample to C8 as stated: after taking the cuffs, no item in the
current room matches the input `cuffs`, yet `inspect cuffs` resolves it (from
the inventory), prints the cuffs description and consumes a minute — so
`inspect` does not scan the current room's item contents only. -/
theorem C8_counterexample :
    ("cuffs" ∉ (current_room (runCmds init0 [Cmd.take ["cuffs"]]).s.g).items) ∧
    (∀ i ∈ (current_room (runCmds init0 [Cmd.take ["cuffs"]]).s.g).items,
      itemMatches (runCmds init0 [Cmd.take ["cuffs"]]).s.g i (joinLower ["cuffs"]) =
        false) ∧
    (inspect (runCmds init0 [Cmd.take ["cuffs"]]).s.g ["cuffs"]).out =
      ["Security-issue restraints. Required to arrest."] ∧
    (inspect (runCmds init0 [Cmd.take ["cuffs"]]).s.g ["cuffs"]).g.time =
      (runCmds init0 [Cmd.take ["cuffs"]]).s.g.time - 1 := by
  decide

/-- C4: `arrest` with no argument, without the cuffs, with an absent target,
or with an already-restrained target changes nothing (no time, no state);
with the cuffs held and a present, unrestrained target it marks the target
arrested, relocates them to the brig, reveals the codes token in the brig
exactly when the target is the killer without ever duplicating it, and
consumes 3 minutes (ending the game exactly when at most 3 minutes remain). -/
theorem C4_arrest :
    (∀ (g : Game), arrest g [] = ⟨g, ["Arrest whom?"], none⟩) ∧
    (∀ (g : Game) (a : String) (rest : List String), "cuffs" ∉ g.inv →
      arrest g (a :: rest) = ⟨g, ["You need Restraint Cuffs to arrest."], none⟩) ∧
    (∀ (g : Game) (a : String) (rest : List String), "cuffs" ∈ g.inv →
      (current_room g).npcs.find?
        (fun nid => npcMatches g nid (joinLower (a :: rest))) = none →
      arrest g (a :: rest) = ⟨g, ["They aren’t here."], none⟩) ∧
    (∀ (g : Game) (a : String) (rest : List String) (tid : String), "cuffs" ∈ g.inv →
      (current_room g).npcs.find?
        (fun nid => npcMatches g nid (joinLower (a :: rest))) = some tid →
      (get_npc g tid).arrested = true →
      arrest g (a :: rest) = ⟨g, ["Already restrained."], none⟩) ∧
    ∀ (g : Game) (a : String) (rest : List String) (tid : String) (n : NPC) (br : Room),
      "cuffs" ∈ g.inv →
      (current_room g).npcs.find?
        (fun nid => npcMatches g nid (joinLower (a :: rest))) = some tid →
      (get_npc g tid).arrested = false →
      alGet g.npcs tid = some n →
      alGet g.rooms g.brigrm = some br →
      (get_npc (arrest g (a :: rest)).g tid).arrested = true ∧
      (get_npc (arrest g (a :: rest)).g tid).room = g.brigrm ∧
      (arrest g (a :: rest)).g.time = max 0 (g.time - 3) ∧
      ("codes_token" ∈ (get_room (arrest g (a :: rest)).g g.brigrm).items ↔
        (tid = g.killer_id ∨ "codes_token" ∈ br.items)) ∧
      (get_room (arrest g (a :: rest)).g g.brigrm).items.count "codes_token" =
        (if tid = g.killer_id ∧ "codes_token" ∉ br.items then
          br.items.count "codes_token" + 1
        else br.items.count "codes_token") ∧
      ((arrest g (a :: rest)).ex = some Exit.lose ↔ g.time ≤ 3) := by
  refine ⟨fun g => rfl, arrest_no_cuffs, arrest_not_here, arrest_already, ?_⟩
  intro g a rest tid n br hc hfind harr hn hbr
  obtain ⟨hgeq, hexeq⟩ := arrest_success_eq g a rest tid hc hfind harr
  obtain ⟨f1, f2, f3, f4, f5⟩ := arrestState_facts g tid n br hn hbr
  rw [hgeq, spend_g]
  refine ⟨?_, ?_, ?_, ?_, ?_, ?_⟩
  · rw [get_npc_time]
    exact f1
  · rw [get_npc_time]
    exact f2
  · dsimp only
    rw [f3]
  · rw [get_room_time]
    exact f4
  · rw [get_room_time]
    exact f5
  · rw [hexeq, spend_ex_iff, f3, max_eq_left_iff]
    omega

/-- Witness for C4 at a concrete input: with the cuffs in hand in the Gala
Dome, arresting the present minister marks her arrested, and the arrest ends
the game only when at most 3 minutes remain (here 57 remain). -/
theorem C4_arrest_witness :
    (get_npc (arrest (runCmds init0 [Cmd.take ["cuffs"], Cmd.go ["n"]]).s.g
      ["chen"]).g "chen").arrested = true ∧
    ((arrest (runCmds init0 [Cmd.take ["cuffs"], Cmd.go ["n"]]).s.g ["chen"]).ex =
      some Exit.lose ↔
      (runCmds init0 [Cmd.take ["cuffs"], Cmd.go ["n"]]).s.g.time ≤ 3) := by
  have h := C4_arrest.2.2.2.2 (runCmds init0 [Cmd.take ["cuffs"], Cmd.go ["n"]]).s.g
    "chen" [] "chen"
    (get_npc (runCmds init0 [Cmd.take ["cuffs"], Cmd.go ["n"]]).s.g "chen")
    (get_room (runCmds init0 [Cmd.take ["cuffs"], Cmd.go ["n"]]).s.g "brig")
    (by decide) (by decide) (by decide) (by decide) (by decide)
  exact ⟨h.1, h.2.2.2.2.2⟩

/-- C2: executing `save` and then `load` restores the identical game state —
timer, player room, inventory, every room's item and NPC lists, every NPC's
room/arrested/cooperative fields, the culprit and the evidence assignment —
given that the room and suspect tables have no duplicate keys (true of the
built world). -/
theorem C2_save_load :
    ∀ (s : Sys), (s.g.rooms.map Prod.fst).Nodup → (s.g.npcs.map Prod.fst).Nodup →
      (stepSys (stepSys s Cmd.save).s Cmd.load).s.g = s.g ∧
      (stepSys s Cmd.save).ex = none ∧
      (stepSys (stepSys s Cmd.save).s Cmd.load).ex = none := by
  intro s h1 h2
  rcases stepSys_s_eq s Cmd.save with ⟨hs1, he1⟩
  have hsave : (stepSys s Cmd.save).s = ⟨s.g, some (save_data s.g)⟩ := by
    rw [hs1]
    rfl
  rcases stepSys_s_eq (stepSys s Cmd.save).s Cmd.load with ⟨hs2, he2⟩
  refine ⟨?_, ?_, ?_⟩
  · rw [hs2, hsave]
    show load_from s.g (save_data s.g) = s.g
    exact load_save_id s.g h1 h2
  · rw [he1]
    rfl
  · rw [he2, hsave]
    rfl

/-- Witness for C2 at a concrete input: save-then-load from the initial
state restores it exactly. -/
theorem C2_save_load_witness :
    (stepSys (stepSys init0 Cmd.save).s Cmd.load).s.g = init0.g :=
  (C2_save_load init0 (by decide) (by decide)).1

/-- C1 (amended): every state reachable from the initial state satisfies the
game invariant `Inv`, under which: once the true culprit has been arrested,
using the console in the command room prints the victory text and exits in a
win; while the culprit is not arrested the console never wins — in the
command room it prints the rejection line and spends one minute, so the game
continues with the timer still ticking exactly when more than one minute
remained, and otherwise that minute ends the game in an immediate loss. -/
theorem C1_console :
    (∀ cmds : List Cmd, SysInv (runCmds init0 cmds).s) ∧
    ∀ g : Game, Inv g →
      ((get_npc g g.killer_id).arrested = true → g.player_room = g.cmdrm →
        use_console g = ⟨g,
          ["You splice in the Master Codes Token from the Brig. The lockout shudders…",
           "Trajectory control restored. Starhaven veers away from the sun.",
           "The killer was " ++ (get_npc g g.killer_id).name ++ ". Justice will follow.",
           "YOU WIN."], some Exit.win⟩) ∧
      ((get_npc g g.killer_id).arrested = false →
        (use_console g).ex ≠ some Exit.win ∧
        (g.player_room = g.cmdrm →
          (use_console g).out.headD "" =
            "Console flashes: “DECRYPTION SEED REQUIRED — (ARREST PERPETRATOR)”." ∧
          (use_console g).g.time = max 0 (g.time - 1) ∧
          ((use_console g).ex = none ↔ 1 < g.time) ∧
          ((use_console g).ex = some Exit.lose ↔ g.time ≤ 1))) := by
  constructor
  · intro cmds
    exact sysInv_runCmds cmds init0 sysInv_init0
  · intro g hInv
    constructor
    · intro harr hcmd
      unfold use_console
      rw [if_pos hcmd, if_pos (hInv.2.2.2.2.2.1.mp harr)]
    · intro harr
      have hcodes : "codes_token" ∉ (get_room g g.brigrm).items := by
        intro hc
        rw [hInv.2.2.2.2.2.1.mpr hc] at harr
        exact Bool.noConfusion harr
      constructor
      · by_cases hcmd : g.player_room = g.cmdrm
        · unfold use_console
          rw [if_pos hcmd, if_neg hcodes]
          dsimp only
          exact spend_ex_ne_win g 1
        · unfold use_console
          rw [if_neg hcmd]
          intro hcon
          exact Option.noConfusion hcon
      · intro hcmd
        unfold use_console
        rw [if_pos hcmd, if_neg hcodes]
        dsimp only
        refine ⟨rfl, spend_time g 1, ?_, ?_⟩
        · rw [spend_ex_none_iff, Ne, max0_eq_zero_iff]
          omega
        · rw [spend_ex_iff, max0_eq_zero_iff]
          omega

/-- Counterexample to C1 as stated: a reachable state (only the wrong suspect
arrested, player at the command deck, one minute left) where using the
console does not leave the game continuing with the timer ticking — the
rejection's one-minute cost terminates the game in a loss. -/
theorem C1_counterexample :
    (runCmds init0 ([Cmd.take ["cuffs"], Cmd.go ["n"], Cmd.arrest ["chen"],
        Cmd.go ["e"]] ++ List.replicate 17 (Cmd.accuse ["voss"]))).ex = none ∧
    (get_npc (runCmds init0 ([Cmd.take ["cuffs"], Cmd.go ["n"], Cmd.arrest ["chen"],
        Cmd.go ["e"]] ++ List.replicate 17 (Cmd.accuse ["voss"]))).s.g
      (runCmds init0 ([Cmd.take ["cuffs"], Cmd.go ["n"], Cmd.arrest ["chen"],
        Cmd.go ["e"]] ++ List.replicate 17 (Cmd.accuse ["voss"]))).s.g.killer_id).arrested
      = false ∧
    (get_npc (runCmds init0 ([Cmd.take ["cuffs"], Cmd.go ["n"], Cmd.arrest ["chen"],
        Cmd.go ["e"]] ++ List.replicate 17 (Cmd.accuse ["voss"]))).s.g
      "chen").arrested = true ∧
    (runCmds init0 ([Cmd.take ["cuffs"], Cmd.go ["n"], Cmd.arrest ["chen"],
        Cmd.go ["e"]] ++ List.replicate 17 (Cmd.accuse ["voss"]))).s.g.player_room =
      (runCmds init0 ([Cmd.take ["cuffs"], Cmd.go ["n"], Cmd.arrest ["chen"],
        Cmd.go ["e"]] ++ List.replicate 17 (Cmd.accuse ["voss"]))).s.g.cmdrm ∧
    (runCmds init0 ([Cmd.take ["cuffs"], Cmd.go ["n"], Cmd.arrest ["chen"],
        Cmd.go ["e"]] ++ List.replicate 17 (Cmd.accuse ["voss"]))).s.g.time = 1 ∧
    (stepSys (runCmds init0 ([Cmd.take ["cuffs"], Cmd.go ["n"], Cmd.arrest ["chen"],
        Cmd.go ["e"]] ++ List.replicate 17 (Cmd.accuse ["voss"]))).s
      Cmd.useConsole).ex = some Exit.lose := by
  decide

/-- Witness for C1 at a concrete input: in the initial state the culprit is
not arrested, and the console cannot win. -/
theorem C1_console_witness :
    (get_npc init0.g init0.g.killer_id).arrested = false ∧
    (use_console init0.g).ex ≠ some Exit.win :=
  ⟨by decide, ((C1_console.2 init0.g sysInv_init0.1).2 (by decide)).1⟩

/-- C9 (amended): in any stretch of the game that performs no `load`, once a
suspect is arrested they stay arrested and appear in no room's visible NPC
list — in particular the room lookup shared by `talk`, `inspect` and a second
`arrest` can never resolve a name to them, so those commands report the
suspect as not present; a `load` of an earlier save, however, can make the
suspect visible again. -/
theorem C9_arrested_invisible :
    ∀ (cmds : List Cmd) (s : Sys) (nid : String),
      SysInv s → (get_npc s.g nid).arrested = true →
      (∀ c ∈ cmds, c.isLoad = false) →
      (get_npc (runCmds s cmds).s.g nid).arrested = true ∧
      (∀ p ∈ (runCmds s cmds).s.g.rooms, nid ∉ p.2.npcs) ∧
      ∀ args : List String, (current_room (runCmds s cmds).s.g).npcs.find?
          (fun x => npcMatches (runCmds s cmds).s.g x (joinLower args)) ≠ some nid := by
  intro cmds
  induction cmds with
  | nil =>
    intro s nid hS harr hl
    have h := inv_arrested_invisible s.g nid hS.1 harr
    exact ⟨harr, h.1, h.2⟩
  | cons c cs ih =>
    intro s nid hS harr hl
    have hS2 := sysInv_step s c hS
    have harr2 := arrested_step s c nid (hl c (List.mem_cons_self c cs)) harr
    simp only [runCmds]
    cases hex : (stepSys s c).ex with
    | some e =>
      have h := inv_arrested_invisible (stepSys s c).s.g nid hS2.1 harr2
      exact ⟨harr2, h.1, h.2⟩
    | none =>
      exact ih (stepSys s c).s nid hS2 harr2 (fun c2 h2 => hl c2 (List.mem_cons_of_mem c h2))

/-- Counterexample to C9 as stated: save before the arrest, arrest the
minister (she is marked arrested), then load — she is visible again in the
current room's NPC list with her arrest undone. -/
theorem C9_counterexample :
    (get_npc (runCmds init0 [Cmd.take ["cuffs"], Cmd.go ["n"], Cmd.save,
        Cmd.arrest ["chen"]]).s.g "chen").arrested = true ∧
    "chen" ∈ (current_room (runCmds init0 [Cmd.take ["cuffs"], Cmd.go ["n"], Cmd.save,
        Cmd.arrest ["chen"], Cmd.load]).s.g).npcs ∧
    (get_npc (runCmds init0 [Cmd.take ["cuffs"], Cmd.go ["n"], Cmd.save,
        Cmd.arrest ["chen"], Cmd.load]).s.g "chen").arrested = false := by
  decide

/-- Witness for C9 at a concrete input: after arresting the minister in the
Gala Dome, a further load-free step later she is still arrested and in no
room's visible list. -/
theorem C9_arrested_invisible_witness :
    (get_npc (runCmds (runCmds init0 [Cmd.take ["cuffs"], Cmd.go ["n"],
        Cmd.arrest ["chen"]]).s [Cmd.go ["e"]]).s.g "chen").arrested = true ∧
    ∀ p ∈ (runCmds (runCmds init0 [Cmd.take ["cuffs"], Cmd.go ["n"],
        Cmd.arrest ["chen"]]).s [Cmd.go ["e"]]).s.g.rooms, "chen" ∉ p.2.npcs := by
  have h := C9_arrested_invisible [Cmd.go ["e"]]
    (runCmds init0 [Cmd.take ["cuffs"], Cmd.go ["n"], Cmd.arrest ["chen"]]).s "chen"
    (sysInv_runCmds [Cmd.take ["cuffs"], Cmd.go ["n"], Cmd.arrest ["chen"]] init0 sysInv_init0)
    (by decide) (by decide)
  exact ⟨h.1, h.2.1⟩

end Starhaven
